import Mathlib

/-!
# InstaDocs — shallow embedding of the completeness-aware answering pipeline

This file embeds, in Lean 4, the parts of the InstaDocs backend that the
verified properties talk about:

* `FallbackProvider.generate_completion` (src/backend/providers/fallback_provider.py),
* `LLMService._format_context` and `LLMService.generate_answer`
  (src/backend/services/llm_service.py),
* `EmbeddingService._generate_embedding` and `EmbeddingService.search`
  (src/backend/services/embedding_service.py),
* `FeedbackService.store_feedback`, `delete_feedback`, `get_feedback_stats`,
  `_generate_suggestions`, `_save_feedback` (src/backend/services/feedback_service.py),
* `DocumentService._save_metadata` and the metadata-recording part of
  `save_and_process` (src/backend/services/document_service.py).

Modelling conventions:

* Python strings are embedded as their character lists (`Str := List Char`);
  `str.split(sep)` is `splitL`, substring tests are `charsHasSubstr`,
  `startswith` is `charsHasStart`, slices are `List.take`.  The fallback
  provider's parsing of `user_message` — the `"No relevant context found"`
  substring test, the `split("Context:\n")[-1].split("\n\nQuestion:")[0]` /
  `split("Question: ")[-1]` extractions and the `[Source …]` line-scan loop
  with its swallowed `IndexError`/`ValueError`s — is embedded on these
  strings operation by operation, not on a structured context.
* Python floats are embedded as exact rationals (`ℚ`); all confidence and
  relevance arithmetic in the source is sums, divisions, `min` and
  comparisons, which `ℚ` reproduces exactly.  `f"{x:.2f}"` is modeled as
  round-half-up to two decimals (`round2N`/`format2f`); `float(s)` is
  modeled for plain decimal literals (`parseFloat`), which covers every
  string this code base renders (exponent/inf/nan forms are not modeled).
* Provider output is a partial dict (`RawDict`, every key optional);
  building `EnrichmentSuggestion`/`AnswerResponse` pydantic models from it
  can raise (missing key, priority pattern, confidence range), so
  `LLMService.generate_answer` returns `Except String AnswerResponse`:
  `Except.error` is an exception surfacing to the caller.
* External effects (uuid generation, wall-clock timestamps, the ChromaDB
  nearest-neighbour call, remote HTTP calls, file writes, the remote
  embedding call and the local model initialization) are passed in as
  explicit parameters or oracle booleans; everything downstream of them is
  embedded from the source.
-/

/-- Python strings, as their character lists. -/
abbrev Str := List Char

/-- Whether `pat` is an initial segment of `s` (`str.startswith`). -/
def charsHasStart : Str → Str → Bool
  | _, [] => true
  | [], _ :: _ => false
  | c :: s, p :: ps => c = p && charsHasStart s ps

/-- Whether `pat` occurs contiguously inside `s` (Python's `pat in s`). -/
def charsHasSubstr : Str → Str → Bool
  | [], pat => pat.isEmpty
  | c :: rest, pat => charsHasStart (c :: rest) pat || charsHasSubstr rest pat

/-- String wrapper for the substring test. -/
def hasSubstr (s pat : String) : Bool :=
  charsHasSubstr s.data pat.data

/-- Worker for `splitL`: scans `s` left to right, accumulating the current
fragment in reverse in `cur` and emitting it at each non-overlapping
occurrence of `sep`.  The fuel argument (always called with `s.length`)
makes the recursion structural, so the function evaluates inside the
kernel. -/
def splitGo (sep : Str) : Str → Str → Nat → List Str
  | s, cur, 0 => [cur.reverse ++ s]
  | [], cur, _ + 1 => [cur.reverse]
  | c :: rest, cur, fuel + 1 =>
    if 0 < sep.length ∧ charsHasStart (c :: rest) sep = true then
      cur.reverse :: splitGo sep (List.drop sep.length (c :: rest)) [] fuel
    else splitGo sep rest (c :: cur) fuel

/-- Python `s.split(sep)` for non-empty `sep`: the fragments of `s` between
non-overlapping left-to-right occurrences of `sep`; always non-empty, and
`[s]` when `sep` does not occur. -/
def splitL (sep s : Str) : List Str :=
  splitGo sep s [] s.length

/-- Decimal digit to character. -/
def digitChar (d : Nat) : Char :=
  if d = 0 then '0' else if d = 1 then '1' else if d = 2 then '2' else if d = 3 then '3'
  else if d = 4 then '4' else if d = 5 then '5' else if d = 6 then '6' else if d = 7 then '7'
  else if d = 8 then '8' else '9'

/-- Character to decimal digit (10 for a non-digit). -/
def digitVal (c : Char) : Nat :=
  if c = '0' then 0 else if c = '1' then 1 else if c = '2' then 2 else if c = '3' then 3
  else if c = '4' then 4 else if c = '5' then 5 else if c = '6' then 6 else if c = '7' then 7
  else if c = '8' then 8 else if c = '9' then 9 else 10

/-- Whether a character is a decimal digit. -/
def isDigitCh (c : Char) : Bool :=
  c ∈ "0123456789".toList

/-- Little-endian decimal digits of `n`, with fuel for structural
recursion (called with fuel `n`). -/
def natDigitsAux : Nat → Nat → List Nat
  | 0, _ => []
  | _ + 1, 0 => []
  | fuel + 1, n + 1 => (n + 1) % 10 :: natDigitsAux fuel ((n + 1) / 10)

/-- Python `str(n)` for a natural number. -/
def natToChars (n : Nat) : Str :=
  if n = 0 then ['0'] else ((natDigitsAux n n).map digitChar).reverse

/-- Two zero-padded decimal digits of `k < 100`. -/
def twoDigitChars (k : Nat) : Str :=
  [digitChar (k / 10), digitChar (k % 10)]

/-- Numerator of the two-decimal rounding of `q ≥ 0`: the integer nearest
to `100·q`, halves up (the model of `f"{x:.2f}"`'s rounding). -/
def round2N (q : ℚ) : Nat :=
  (200 * q.num.toNat + q.den) / (2 * q.den)

/-- The two-decimal rounding of `q ≥ 0` as a rational. -/
def round2 (q : ℚ) : ℚ :=
  (round2N q : ℚ) / 100

/-- Python `f"{x:.2f}"`, modeled with round-half-up at the second decimal
(CPython rounds the underlying binary double half-to-even; no statement in
this file depends on the rounding of a tie). -/
def format2f (q : ℚ) : Str :=
  if q < 0 then
    '-' :: (natToChars (round2N (-q) / 100) ++ '.' :: twoDigitChars (round2N (-q) % 100))
  else natToChars (round2N q / 100) ++ '.' :: twoDigitChars (round2N q % 100)

/-- Python `int(s)` on all-digit strings (the integer part of a float
literal); `none` models a `ValueError`. -/
def parseDigits (s : Str) : Option Nat :=
  if s ≠ [] ∧ (∀ c ∈ s, isDigitCh c = true) then
    some (s.foldl (fun a c => a * 10 + digitVal c) 0)
  else none

/-- Unsigned part of Python `float(s)` for plain decimal literals:
`"d+"`, `"d+."`, `".d+"`, `"d+.d+"`. -/
def parseUnsignedFloat (s : Str) : Option ℚ :=
  let ip := s.takeWhile fun c => c ≠ '.'
  match s.dropWhile fun c => c ≠ '.' with
  | [] => (parseDigits ip).map fun n => (n : ℚ)
  | _ :: frac =>
    if ip = [] then (parseDigits frac).map fun n => (n : ℚ) / 10 ^ frac.length
    else
      match parseDigits ip, if frac = [] then some 0 else parseDigits frac with
      | some n, some m => some ((n : ℚ) + (m : ℚ) / 10 ^ frac.length)
      | _, _ => none

/-- Python `float(s)` for plain decimal literals with an optional sign;
`none` models a `ValueError`. -/
def parseFloat (s : Str) : Option ℚ :=
  match s with
  | c :: rest =>
    if c = '-' then (parseUnsignedFloat rest).map fun q => -q
    else parseUnsignedFloat (c :: rest)
  | [] => parseUnsignedFloat []

/-- One retrieval-context entry: the dict built by `EmbeddingService.search`
and consumed by `LLMService._format_context`. -/
structure CtxEntry where
  content : String
  source : String
  relevance : ℚ
  page : String
deriving DecidableEq, Repr

/-- One suggestion dict inside a provider's raw result; every key may be
missing (`EnrichmentSuggestion(**suggestion)` raises when one is). -/
structure SuggDict where
  missing_topic : Option Str
  suggested_action : Option Str
  priority : Option Str
deriving DecidableEq, Repr

/-- The raw structured result a provider's `generate_completion` returns:
a dict in which every key may be missing — `result["key"]` raises
`KeyError` on an absent key, `result.get("key")` yields `None`. -/
structure RawDict where
  answer : Option Str
  confidence : Option ℚ
  sources_used : Option (List Str)
  is_complete : Option Bool
  missing_information : Option (List Str)
  enrichment_suggestions : Option (List SuggDict)
  reasoning : Option Str
deriving DecidableEq, Repr

/-- `EnrichmentSuggestion` from src/backend/models/schemas.py: pydantic
validates `priority` against the pattern `^(high|medium|low)$`. -/
structure EnrichmentSuggestion where
  missing_topic : Str
  suggested_action : Str
  priority : Str
deriving DecidableEq, Repr

/-- `AnswerResponse` from src/backend/models/schemas.py (`confidence` has
`ge=0, le=1`). -/
structure AnswerResponse where
  query_id : Str
  answer : Str
  confidence : ℚ
  sources_used : List Str
  is_complete : Bool
  missing_information : Option (List Str)
  enrichment_suggestions : Option (List EnrichmentSuggestion)
  reasoning : Str
deriving DecidableEq, Repr

namespace LLMService

/-- One block of `LLMService._format_context`:
`f"[Source {idx}: {source} - Page {page} (Relevance: {score:.2f})]\n{content}\n"`. -/
def block (idx : Nat) (e : CtxEntry) : Str :=
  "[Source ".toList ++ natToChars idx ++ ": ".toList ++ e.source.toList ++
    " - Page ".toList ++ e.page.toList ++ " (Relevance: ".toList ++ format2f e.relevance ++
    ")]\n".toList ++ e.content.toList ++ "\n".toList

/-- The `"\n".join` of the enumerated source blocks, starting at index
`idx` (`_format_context` starts at 1). -/
def formatFrom (idx : Nat) : List CtxEntry → Str
  | [] => []
  | [e] => block idx e
  | e :: rest => block idx e ++ "\n".toList ++ formatFrom (idx + 1) rest

/-- `LLMService._format_context`: the sentinel string for an empty context,
otherwise the joined source blocks with 1-based indices. -/
def format_context (ctx : List CtxEntry) : Str :=
  if ctx.isEmpty then "No relevant context found in the knowledge base.".toList
  else formatFrom 1 ctx

/-- The user message `generate_answer` builds:
`f"Context:\n{context_text}\n\nQuestion: {query}"`. -/
def mkUserMessage (query : String) (ctx : List CtxEntry) : Str :=
  "Context:\n".toList ++ format_context ctx ++ "\n\nQuestion: ".toList ++ query.toList

end LLMService

namespace FallbackProvider

/-- `user_message.split("Context:\n")[-1].split("\n\nQuestion:")[0]`
(fallback_provider.py line 18).  Python's `split` never returns an empty
list, so the `getLastD`/`headD` defaults are never used. -/
def extractContext (user_message : Str) : Str :=
  (splitL "\n\nQuestion:".toList
    ((splitL "Context:\n".toList user_message).getLastD [])).headD []

/-- `user_message.split("Question: ")[-1]` (fallback_provider.py line 19). -/
def extractQuery (user_message : Str) : Str :=
  (splitL "Question: ".toList user_message).getLastD []

/-- The loop state of the `[Source …]` line scan: collected source names,
accumulated relevance sum (the running `avg_relevance` before the final
division) and the number of parsed relevance values. -/
structure ScanState where
  sources : List Str
  rel_sum : ℚ
  rel_count : Nat
deriving DecidableEq, Repr

/-- One iteration of the line scan (fallback_provider.py lines 45–57).
The `try`/`except: pass` semantics is kept: an `IndexError` on
`line.split(': ')[1]` skips the whole line; failures after the source was
appended (`line.split('Relevance: ')[1]` raising `IndexError`, `float`
raising `ValueError`) keep the appended source and skip only the
relevance update. -/
def processLine (acc : ScanState) (line : Str) : ScanState :=
  if charsHasStart line "[Source".toList then
    match splitL ": ".toList line with
    | _ :: second :: _ =>
      let source := (splitL " - ".toList second).headD []
      let sources' := if source ∈ acc.sources then acc.sources else acc.sources ++ [source]
      if charsHasSubstr line "Relevance:".toList then
        match splitL "Relevance: ".toList line with
        | _ :: second2 :: _ =>
          match parseFloat ((splitL [')'] second2).headD []) with
          | some v => ⟨sources', acc.rel_sum + v, acc.rel_count + 1⟩
          | none => ⟨sources', acc.rel_sum, acc.rel_count⟩
        | _ => ⟨sources', acc.rel_sum, acc.rel_count⟩
      else ⟨sources', acc.rel_sum, acc.rel_count⟩
    | _ => acc
  else acc

/-- `FallbackProvider.generate_completion` (fallback_provider.py lines
16–94) on the raw `user_message` string.  The unused `system_prompt`
parameter is omitted.  The no-context branch fires on the sentinel
substring; otherwise the `context_text.split('\n')` lines are scanned,
the mean parsed relevance is capped at 0.65 and the answer, missing
information and suggestions are assembled exactly as in the source. -/
def generate_completion (user_message : Str) : RawDict :=
  let context_text := extractContext user_message
  let query := extractQuery user_message
  if charsHasSubstr context_text "No relevant context found".toList then
    { answer := some ("I couldn't find relevant information in the knowledge base to answer: '".toList
        ++ query ++ "'. Please upload documents related to this topic.".toList)
      confidence := some (1 / 10)
      sources_used := some []
      is_complete := some false
      missing_information := some ["Information about: ".toList ++ query]
      enrichment_suggestions := some [⟨some query,
        some ("Upload documents containing information about ".toList ++ query),
        some "high".toList⟩]
      reasoning := some "No relevant documents found in the knowledge base.".toList }
  else
    let scan := (splitL ['\n'] context_text).foldl processLine ⟨[], 0, 0⟩
    let avg_relevance :=
      if 0 < scan.rel_count then scan.rel_sum / (scan.rel_count : ℚ) else scan.rel_sum
    let confidence := min avg_relevance (13 / 20 : ℚ)
    let is_complete : Bool := decide ((1 / 2 : ℚ) < confidence)
    let answer :=
      if (2 / 5 : ℚ) < confidence then
        "Based on the available documents:\n\n".toList ++ context_text.take 800 ++
          (if 800 < context_text.length then
            "...\n\n(More information available in source documents)".toList else [])
      else
        "I found some information, but it may not be highly relevant to: '".toList ++
          query ++ "'".toList
    let missing_info : List Str :=
      if is_complete then [] else ["More comprehensive information on this topic".toList]
    let suggestions : List SuggDict :=
      if is_complete then []
      else [⟨some query, some "Upload more detailed documents about this specific topic".toList,
        some "medium".toList⟩]
    { answer := some answer
      confidence := some confidence
      sources_used := some scan.sources
      is_complete := some is_complete
      missing_information := if missing_info.isEmpty then none else some missing_info
      enrichment_suggestions := if suggestions.isEmpty then none else some suggestions
      reasoning := some ("Rule-based response (relevance: ".toList ++ format2f avg_relevance ++
        "). Configure an LLM provider for better results.".toList) }

end FallbackProvider

namespace LLMService

/-- `result["key"]`: the value when the key is present, a `KeyError`
otherwise. -/
def reqField {α : Type} (v : Option α) (key : String) : Except String α :=
  match v with
  | some a => Except.ok a
  | none => Except.error ("KeyError: " ++ key)

/-- `EnrichmentSuggestion(**suggestion)`: raises when a field is missing
or the priority fails the `^(high|medium|low)$` pattern. -/
def parseSuggestion (d : SuggDict) : Except String EnrichmentSuggestion :=
  match d.missing_topic, d.suggested_action, d.priority with
  | some t, some a, some p =>
    if p = "high".toList ∨ p = "medium".toList ∨ p = "low".toList then Except.ok ⟨t, a, p⟩
    else Except.error "ValidationError: priority must match high, medium or low"
  | _, _, _ => Except.error "ValidationError: missing suggestion field"

/-- `LLMService.generate_answer` (llm_service.py lines 72–127).
`provided = some r` is the active provider's `generate_completion`
returning the raw dict `r`; `provided = none` is the provider raising
(transport error, timeout, or — in `OpenAIProvider.generate_completion` —
`json.loads` failing on unparseable content), in which case the `except`
arm builds a `FallbackProvider` and calls it on the same `user_message`.
The suggestion list is parsed first when truthy (lines 108–113, each
`EnrichmentSuggestion(**s)` may raise); then `AnswerResponse(...)`
evaluates the required keys (`KeyError` on an absent one) and pydantic
validates the confidence range.  Any such exception propagates to the
caller: it is an `Except.error` here. -/
def generate_answer (query_id : Str) (provided : Option RawDict) (query : String)
    (ctx : List CtxEntry) : Except String AnswerResponse :=
  let user_message := mkUserMessage query ctx
  let result : RawDict :=
    match provided with
    | some r => r
    | none => FallbackProvider.generate_completion user_message
  match (match result.enrichment_suggestions with
    | some (s :: rest) => Except.map some ((s :: rest).mapM parseSuggestion)
    | _ => Except.ok none) with
  | Except.error e => Except.error e
  | Except.ok es =>
    match reqField result.answer "answer", reqField result.confidence "confidence",
        reqField result.sources_used "sources_used", reqField result.is_complete "is_complete",
        reqField result.reasoning "reasoning" with
    | Except.ok ans, Except.ok conf, Except.ok srcs, Except.ok ic, Except.ok rs =>
      if 0 ≤ conf ∧ conf ≤ 1 then
        Except.ok ⟨query_id, ans, conf, srcs, ic, result.missing_information, es, rs⟩
      else Except.error "ValidationError: confidence must be between 0 and 1"
    | Except.error e, _, _, _, _ => Except.error e
    | _, Except.error e, _, _, _ => Except.error e
    | _, _, Except.error e, _, _ => Except.error e
    | _, _, _, Except.error e, _ => Except.error e
    | _, _, _, _, Except.error e => Except.error e

end LLMService

namespace EmbeddingService

/-- One raw nearest-neighbour hit returned by the ChromaDB query inside
`EmbeddingService.search`: a stored document chunk, its metadata fields and
its cosine distance to the query vector. -/
structure QueryHit where
  document : String
  source : String
  chunk_id : String
  doc_id : String
  page : String
  distance : ℚ
deriving DecidableEq, Repr

/-- The per-hit formatting of `EmbeddingService.search`: converts the raw
cosine distance to `similarity = 1 - distance / 2` and packages the chunk
with its metadata. -/
def formatHit (h : QueryHit) : CtxEntry × String × String :=
  (⟨h.document, h.source, 1 - h.distance / 2, h.page⟩, h.chunk_id, h.doc_id)

/-- The result-formatting loop of `EmbeddingService.search`
(embedding_service.py lines 155–177): the guard
`if results["documents"] and len(results["documents"][0]) > 0` skips the
loop for an empty hit list, otherwise each hit becomes a context dict with
`relevance_score = 1 - distance / 2`.  The full result dict also carries
`chunk_id`/`doc_id`; the claims only look at the `CtxEntry` part, so
`search` projects `formatHit` to it. -/
def search (hits : List QueryHit) : List CtxEntry :=
  if hits.isEmpty then [] else hits.map fun h => (formatHit h).1

/-- Which embedding strategy a call to
`EmbeddingService._generate_embedding` ends up using. -/
inductive EmbedMethod where
  | remote
  | local_model
deriving DecidableEq, Repr

/-- The mutable embedder fields `_generate_embedding` reads and writes:
`self.use_openai`, `self.openai_client is not None`, and whether
`self.embedding_model` (the sentence-transformers model) has been
initialized (`hasattr(self, 'embedding_model')`). -/
structure EmbedderState where
  use_openai : Bool
  has_openai_client : Bool
  has_embedding_model : Bool
deriving DecidableEq, Repr

/-- Whether a call from state `st` enters the `if self.use_openai and
self.openai_client:` branch, i.e. actually invokes the remote strategy. -/
def remoteInvoked (st : EmbedderState) : Bool :=
  st.use_openai && st.has_openai_client

/-- `EmbeddingService._generate_embedding` (embedding_service.py lines
74–95) as a step function; `remoteFails` is the oracle for the remote call
raising, `localInitFails` for `_init_sentence_transformers()` raising.  In
the except arm the source lazily initializes the local model BEFORE the
`self.use_openai = False` demotion line; `_init_sentence_transformers`
re-raises on failure (line 72), so a failed lazy init aborts the call with
the state unchanged — in particular still undemoted. -/
def generate_embedding (st : EmbedderState) (remoteFails localInitFails : Bool) :
    EmbedderState × Except String EmbedMethod :=
  if st.use_openai && st.has_openai_client then
    if remoteFails then
      if !st.has_embedding_model && localInitFails then
        (st, Except.error "Failed to initialize sentence-transformers")
      else
        ({ st with use_openai := false, has_embedding_model := true },
          Except.ok EmbedMethod.local_model)
    else (st, Except.ok EmbedMethod.remote)
  else (st, Except.ok EmbedMethod.local_model)

/-- A sequence of `_generate_embedding` calls on one `EmbeddingService`
instance (each input is the pair of failure oracles for that call); for
each call it records whether the remote strategy was invoked and the
call's outcome. -/
def runCalls (st : EmbedderState) :
    List (Bool × Bool) → EmbedderState × List (Bool × Except String EmbedMethod)
  | [] => (st, [])
  | f :: rest =>
    let step := generate_embedding st f.1 f.2
    let tail := runCalls step.1 rest
    (tail.1, (remoteInvoked st, step.2) :: tail.2)

end EmbeddingService

namespace FeedbackService

/-- One stored feedback entry, the dict built in
`FeedbackService.store_feedback`. -/
structure FeedbackEntry where
  feedback_id : Nat
  query_id : String
  rating : ℤ
  feedback_text : Option String
  query : Option String
  answer : Option String
  confidence : Option ℚ
  timestamp : String
deriving DecidableEq, Repr

/-- `FeedbackService.store_feedback` (feedback_service.py lines 68–123) as
a state transition on the in-memory `feedback_data` list.  `now` is the
`datetime.now().isoformat()` timestamp; `saveOk` is the oracle for
`_save_feedback` succeeding.  An out-of-range rating raises `ValueError`
before anything is appended; a failed save pops the appended entry
(rollback) and re-raises.  The returned list is the in-memory state after
the call, the `Except` the raised error or the returned entry. -/
def store_feedback (data : List FeedbackEntry) (query_id : String) (rating : ℤ)
    (feedback_text query answer : Option String) (confidence : Option ℚ)
    (now : String) (saveOk : Bool) : List FeedbackEntry × Except String FeedbackEntry :=
  if rating < 1 ∨ 5 < rating then
    (data, Except.error ("Rating must be an integer between 1 and 5, got: " ++ toString rating))
  else
    let entry : FeedbackEntry :=
      ⟨data.length + 1, query_id, rating, feedback_text, query, answer, confidence, now⟩
    let appended := data ++ [entry]
    if saveOk then (appended, Except.ok entry)
    else (appended.dropLast, Except.error "Failed to save feedback to file")

/-- `FeedbackService.delete_feedback` (feedback_service.py lines 217–232):
filter out the matching `feedback_id`; report whether anything was removed.
The `_save_feedback()` return value is discarded by the source, so the
in-memory result does not depend on the save succeeding. -/
def delete_feedback (data : List FeedbackEntry) (feedback_id : Nat) :
    List FeedbackEntry × Bool :=
  let kept := data.filter fun f => f.feedback_id ≠ feedback_id
  if kept.length < data.length then (kept, true) else (data, false)

/-- `round(x, 2)` on the mean rating, embedded as round-half-up to two
decimals over `ℚ`. -/
def roundTo2 (q : ℚ) : ℚ :=
  (⌊q * 100 + 1 / 2⌋ : ℤ) / 100

/-- The statistics dict returned by `FeedbackService.get_feedback_stats`.
The empty-history branch of the source omits the `high_rated_count` key,
hence the `Option`. -/
structure FeedbackStats where
  total_feedback : Nat
  average_rating : ℚ
  rating_distribution : List (String × Nat)
  low_rated_count : Nat
  high_rated_count : Option Nat
  suggestions : List String
deriving DecidableEq, Repr

/-- Stable descending insertion by count: inserts `p` before the first
element with a strictly smaller count, preserving insertion order among
equal counts — the order `Counter.most_common` produces. -/
def insertByCount (p : String × Nat) : List (String × Nat) → List (String × Nat)
  | [] => [p]
  | q :: rest => if q.2 < p.2 then p :: q :: rest else q :: insertByCount p rest

/-- Sort word counts descending by count, stably. -/
def sortByCount : List (String × Nat) → List (String × Nat)
  | [] => []
  | p :: rest => insertByCount p (sortByCount rest)

/-- First-occurrence deduplication of a word list. -/
def dedupWords (l : List String) : List String :=
  l.foldl (fun acc w => if w ∈ acc then acc else acc ++ [w]) []

/-- `collections.Counter(words).most_common(3)`: distinct words with their
multiplicities, ordered by decreasing count with insertion order breaking
ties, truncated to three. -/
def mostCommon3 (words : List String) : List (String × Nat) :=
  (sortByCount ((dedupWords words).map fun w =>
    (w, (words.filter fun v => v = w).length))).take 3

/-- Python `str.split()` on a query string: whitespace-separated words,
empty fragments dropped (embedded as splitting on the space character;
queries are single-line, so space is the only separator that occurs). -/
def splitWords (s : String) : List String :=
  (s.splitOn " ").filter fun w => w ≠ ""

/-- `FeedbackService._generate_suggestions` (feedback_service.py lines
166–208) on the low-rated entries: confidence-based messages, the
more-than-three-entries message, the common-topics message, and the default
"performing well" message when nothing else was produced. -/
def generate_suggestions (low_rated : List FeedbackEntry) : List String :=
  let body : List String :=
    if 0 < low_rated.length then
      let confidences := low_rated.filterMap fun f => f.confidence
      let confSuggestions : List String :=
        if 0 < confidences.length then
          let avg_confidence := confidences.sum / confidences.length
          if avg_confidence < 2 / 5 then
            ["Low confidence detected in poor answers - upload more relevant documents"]
          else if 7 / 10 < avg_confidence then
            ["High confidence but low ratings - consider improving LLM prompts or using a better model"]
          else []
        else []
      let countSuggestions : List String :=
        if 3 < low_rated.length then
          ["Multiple low-rated answers (" ++ toString low_rated.length ++
            ") - review knowledge base coverage"]
        else []
      let low_rated_queries :=
        (low_rated.filterMap fun f => f.query).filter (fun q => q ≠ "") |>.map
          fun q => q.toLower
      let topicSuggestions : List String :=
        if low_rated_queries.isEmpty then []
        else
          let words := low_rated_queries.flatMap splitWords
          let common_words := mostCommon3 words
          if common_words.isEmpty then []
          else
            let topics := (common_words.filter fun p => 1 < p.2 ∧ 3 < p.1.length).map
              fun p => p.1
            if topics.isEmpty then []
            else
              ["Common topics in low-rated queries: " ++ String.intercalate ", " topics ++
                " - consider adding documents on these topics"]
      confSuggestions ++ countSuggestions ++ topicSuggestions
    else []
  if body.isEmpty then ["System is performing well - keep the knowledge base updated"]
  else body

/-- `FeedbackService.get_feedback_stats` (feedback_service.py lines
137–164): the fixed empty-history dict (whose `suggestions` is the empty
list and which carries no `high_rated_count`), otherwise mean rating, the
1–5 histogram, low/high counts and `_generate_suggestions` over the
entries rated at most 2. -/
def get_feedback_stats (data : List FeedbackEntry) : FeedbackStats :=
  if data.isEmpty then
    { total_feedback := 0
      average_rating := 0
      rating_distribution := (List.range 5).map fun i => (toString (i + 1), 0)
      low_rated_count := 0
      high_rated_count := none
      suggestions := [] }
  else
    let ratings : List ℤ := data.map fun f => f.rating
    let avg_rating : ℚ := ((ratings.sum : ℤ) : ℚ) / (ratings.length : ℚ)
    let low_rated := data.filter fun f => f.rating ≤ 2
    { total_feedback := data.length
      average_rating := roundTo2 avg_rating
      rating_distribution := (List.range 5).map fun i =>
        (toString (i + 1), (ratings.filter fun r => r = (i : ℤ) + 1).length)
      low_rated_count := low_rated.length
      high_rated_count := some (data.filter fun f => 4 ≤ f.rating).length
      suggestions := generate_suggestions low_rated }

end FeedbackService

/-- The observable content of one on-disk file in the persistence model:
fully written data, a partial write left behind by a failure inside an
in-place `open(path, "w")` + `dump`, or no file at that path. -/
inductive FileContent (α : Type) where
  | intact : α → FileContent α
  | corrupt : FileContent α
  | absent : FileContent α
deriving DecidableEq, Repr

/-- The two paths a persisted-state writer touches: the live target file
and its sibling temporary file. -/
structure FileSystem (α : Type) where
  target : FileContent α
  temp : FileContent α
deriving DecidableEq, Repr

/-- `open(path, "w")` followed by `json.dump(data, f)`: on success the file
holds `data`; a failure anywhere in the write leaves a truncated or partial
file at that path (the open already clobbered it).  `ok` is the oracle for
the write succeeding. -/
def writeFile {α : Type} (ok : Bool) (data : α) : FileContent α :=
  if ok then FileContent.intact data else FileContent.corrupt

namespace FeedbackService

/-- `FeedbackService._save_feedback` (feedback_service.py lines 46–66):
dump to the `.tmp` sibling first, then `temp_path.replace(storage_path)`
(the atomic rename, which consumes the temp file); any exception is caught
and reported as a `False` return, with the target file never touched by a
failed attempt. -/
def save_feedback {α : Type} (ok : Bool) (data : α) (fs : FileSystem α) :
    FileSystem α × Bool :=
  match writeFile ok data with
  | FileContent.intact d => (⟨FileContent.intact d, FileContent.absent⟩, true)
  | _ => (⟨fs.target, FileContent.corrupt⟩, false)

end FeedbackService

namespace DocumentService

/-- `DocumentService._save_metadata` (document_service.py lines 40–46):
opens the live `metadata.json` itself for writing — no temporary file, no
atomic replace — and catches any exception, only printing it, so the caller
never sees a failure.  The temp path is untouched. -/
def save_metadata {α : Type} (ok : Bool) (data : α) (fs : FileSystem α) :
    FileSystem α :=
  ⟨writeFile ok data, fs.temp⟩

/-- The metadata-recording step of `DocumentService.save_and_process`
(document_service.py lines 140–149): insert the new document's record into
the in-memory `self.metadata` dict, then call `_save_metadata`.  Because
`_save_metadata` swallows exceptions, the step always returns normally and
never rolls the in-memory insert back, whatever the write did. -/
def record_document (ok : Bool) (metadata : List (String × String))
    (doc_id rec : String) (fs : FileSystem (List (String × String))) :
    List (String × String) × FileSystem (List (String × String)) :=
  let updated := metadata ++ [(doc_id, rec)]
  (updated, save_metadata ok updated fs)

end DocumentService

/-- Characters free of every delimiter the fallback's parser splits on or
searches for (all its delimiters contain an uppercase letter, a newline, a
colon, a space, a bracket or a dash): lowercase letters, digits, dot and
underscore. -/
def safeChar (c : Char) : Bool :=
  c ∈ "abcdefghijklmnopqrstuvwxyz0123456789._".toList

/-- A context entry whose fields cannot interfere with the fallback
provider's string parsing: source, page and content drawn from `safeChar`,
and a relevance score in the RetrievalResult range [0, 1]. -/
def cleanEntry (e : CtxEntry) : Prop :=
  (∀ c ∈ e.source.toList, safeChar c = true) ∧ (∀ c ∈ e.page.toList, safeChar c = true) ∧
    (∀ c ∈ e.content.toList, safeChar c = true) ∧ 0 ≤ e.relevance ∧ e.relevance ≤ 1

instance (e : CtxEntry) : Decidable (cleanEntry e) := by
  unfold cleanEntry
  infer_instance

/-- Occurrence-freedom of `sep` at every position inside `a` when `b`
follows: no suffix position of `a` starts an occurrence of `sep` in
`a ++ b`.  This is the side condition under which the splitter consumes
all of `a` into the current fragment. -/
def Pno (sep a b : Str) : Prop :=
  ∀ k, k < a.length → charsHasStart (List.drop k a ++ b) sep = false

instance (sep a b : Str) : Decidable (Pno sep a b) := by
  unfold Pno
  exact Nat.decidableBallLT _ _

/-- Every character that the structural (non-field) text of a header line
can contain: the letters and symbols of `"[Source "`, `": "`, `" - Page "`,
`" (Relevance: "`, `")]"`, the digits of the index and of the two-decimal
relevance rendering, and the decimal dot. -/
def headChars : Str :=
  "[Source :-Pag(Relvnc.)]0123456789".toList

/-- The first line of a source block — everything `block` puts before the
first newline. -/
def headerLine (idx : Nat) (e : CtxEntry) : Str :=
  "[Source ".toList ++ natToChars idx ++ ": ".toList ++ e.source.toList ++ " - Page ".toList ++
    e.page.toList ++ " (Relevance: ".toList ++ format2f e.relevance ++ ")]".toList

/-- The line decomposition of `formatFrom idx ctx` for newline-free fields:
per entry a header line, a content line, and a blank line (the block's
trailing newline joined with the `"\n".join` separator; the final block's
trailing newline yields the final blank). -/
def linesOf : Nat → List CtxEntry → List Str
  | _, [] => [[]]
  | i, [e] => [headerLine i e, e.content.toList, []]
  | i, e :: rest => headerLine i e :: e.content.toList :: [] :: linesOf (i + 1) rest

/-! ## Lemmas about the string scanner -/

theorem charsHasStart_iff {p s : Str} : charsHasStart s p = true ↔ p <+: s := by
  induction p generalizing s with
  | nil =>
    cases s <;> simp [charsHasStart, List.nil_prefix]
  | cons q ps ih =>
    cases s with
    | nil => simp [charsHasStart]
    | cons c s' =>
      simp only [charsHasStart, Bool.and_eq_true, decide_eq_true_eq, ih,
        List.cons_prefix_cons]
      exact ⟨fun h => ⟨h.1.symm, h.2⟩, fun h => ⟨h.1.symm, h.2⟩⟩

theorem charsHasSubstr_iff {s p : Str} : charsHasSubstr s p = true ↔ p <:+: s := by
  induction s with
  | nil =>
    simp [charsHasSubstr, List.isEmpty_iff, List.infix_nil]
  | cons c rest ih =>
    simp [charsHasSubstr, charsHasStart_iff, ih, List.infix_cons_iff]

theorem noSub_of_char {s p : Str} {c : Char} (hc : c ∈ p) (hs : c ∉ s) :
    charsHasSubstr s p = false := by
  cases h : charsHasSubstr s p with
  | false => rfl
  | true => exact absurd ((charsHasSubstr_iff.1 h).subset hc) hs

theorem sub_intro (a p b : Str) : charsHasSubstr (a ++ (p ++ b)) p = true :=
  charsHasSubstr_iff.2 ⟨a, b, by simp⟩

theorem splitGo_fuel {sep : Str} :
    ∀ (f₁ : Nat) (s cur : Str) (f₂ : Nat), s.length ≤ f₁ → s.length ≤ f₂ →
      splitGo sep s cur f₁ = splitGo sep s cur f₂ := by
  intro f₁
  induction f₁ with
  | zero =>
    intro s cur f₂ h₁ _
    have hs : s = [] := List.length_eq_zero.1 (Nat.le_zero.1 h₁)
    subst hs
    cases f₂ <;> simp [splitGo]
  | succ f ih =>
    intro s cur f₂ h₁ h₂
    cases s with
    | nil => cases f₂ <;> simp [splitGo]
    | cons c rest =>
      cases f₂ with
      | zero => simp at h₂
      | succ g =>
        simp only [splitGo]
        by_cases hg : 0 < sep.length ∧ charsHasStart (c :: rest) sep = true
        · rw [if_pos hg, if_pos hg]
          have hlen : (List.drop sep.length (c :: rest)).length ≤ f := by
            rw [List.length_drop]
            simp only [List.length_cons] at h₁ ⊢
            omega
          have hlen2 : (List.drop sep.length (c :: rest)).length ≤ g := by
            rw [List.length_drop]
            simp only [List.length_cons] at h₂ ⊢
            omega
          rw [ih _ _ _ hlen hlen2]
        · rw [if_neg hg, if_neg hg]
          have hlen : rest.length ≤ f := by
            simp only [List.length_cons] at h₁
            omega
          have hlen2 : rest.length ≤ g := by
            simp only [List.length_cons] at h₂
            omega
          rw [ih _ _ _ hlen hlen2]

theorem splitGo_ne_nil {sep : Str} :
    ∀ (fuel : Nat) (s cur : Str), splitGo sep s cur fuel ≠ [] := by
  intro fuel
  induction fuel with
  | zero => intro s cur; simp [splitGo]
  | succ f ih =>
    intro s cur
    cases s with
    | nil => simp [splitGo]
    | cons c rest =>
      simp only [splitGo]
      by_cases hg : 0 < sep.length ∧ charsHasStart (c :: rest) sep = true
      · rw [if_pos hg]; simp
      · rw [if_neg hg]; exact ih _ _

theorem splitL_ne_nil (sep s : Str) : splitL sep s ≠ [] :=
  splitGo_ne_nil _ _ _

theorem splitL_nil (sep : Str) : splitL sep [] = [[]] := by
  simp [splitL, splitGo]

theorem splitL_matchStep {sep : Str} {c : Char} {rest : Str}
    (h : 0 < sep.length ∧ charsHasStart (c :: rest) sep = true) :
    splitL sep (c :: rest) = [] :: splitL sep (List.drop sep.length (c :: rest)) := by
  have hsl := h.1
  simp only [splitL, List.length_cons, splitGo]
  rw [if_pos h]
  refine congrArg _ (splitGo_fuel _ _ _ _ ?_ le_rfl)
  rw [List.length_drop]
  simp only [List.length_cons]
  omega

theorem splitGo_acc {sep : Str} :
    ∀ (fuel : Nat) (s cur : Str), s.length ≤ fuel →
      splitGo sep s cur fuel = (cur.reverse ++ (splitL sep s).headD []) :: (splitL sep s).tail := by
  intro fuel
  induction fuel with
  | zero =>
    intro s cur h
    have hs : s = [] := List.length_eq_zero.1 (Nat.le_zero.1 h)
    subst hs
    simp [splitGo, splitL]
  | succ f ih =>
    intro s cur h
    cases s with
    | nil => simp [splitGo, splitL]
    | cons c rest =>
      by_cases hg : 0 < sep.length ∧ charsHasStart (c :: rest) sep = true
      · have hdl : (List.drop sep.length (c :: rest)).length ≤ f := by
          have hsl := hg.1
          rw [List.length_drop]
          simp only [List.length_cons] at h ⊢
          omega
        rw [splitL_matchStep hg]
        simp only [splitGo]
        rw [if_pos hg]
        simp only [List.headD_cons, List.tail_cons, List.append_nil]
        exact congrArg _ (splitGo_fuel f _ [] _ hdl le_rfl)
      · have hrl : rest.length ≤ f := by
          simp only [List.length_cons] at h
          omega
        obtain ⟨h0, t, hst⟩ : ∃ h0 t, splitL sep rest = h0 :: t := by
          cases hsp : splitL sep rest with
          | nil => exact absurd hsp (splitL_ne_nil _ _)
          | cons a b => exact ⟨a, b, rfl⟩
        have hL : splitL sep (c :: rest) = (c :: h0) :: t := by
          simp only [splitL, List.length_cons, splitGo]
          rw [if_neg hg, splitGo_fuel rest.length rest [c] f le_rfl hrl, ih rest [c] hrl, hst]
          simp
        simp only [splitGo]
        rw [if_neg hg, ih rest (c :: cur) hrl, hL, hst]
        simp

theorem splitL_skipStep {sep : Str} {c : Char} {rest : Str}
    (h : ¬ (0 < sep.length ∧ charsHasStart (c :: rest) sep = true)) :
    splitL sep (c :: rest) = (splitL sep rest).modifyHead (c :: ·) := by
  obtain ⟨h0, t, hst⟩ : ∃ h0 t, splitL sep rest = h0 :: t := by
    cases hsp : splitL sep rest with
    | nil => exact absurd hsp (splitL_ne_nil _ _)
    | cons a b => exact ⟨a, b, rfl⟩
  simp only [splitL, List.length_cons, splitGo]
  rw [if_neg h, splitGo_acc rest.length rest [c] le_rfl, hst]
  rw [show splitGo sep rest [] rest.length = h0 :: t from hst]
  simp

theorem splitL_flow {sep b : Str} :
    ∀ a : Str, Pno sep a b → splitL sep (a ++ b) = (splitL sep b).modifyHead (a ++ ·) := by
  intro a
  induction a with
  | nil =>
    intro _
    simp only [List.nil_append]
    cases hsp : splitL sep b with
    | nil => exact absurd hsp (splitL_ne_nil _ _)
    | cons h0 t => simp
  | cons c a' ih =>
    intro hp
    have h0 := hp 0 (by simp)
    simp only [List.drop_zero] at h0
    rw [List.cons_append, splitL_skipStep (by
      rintro ⟨-, hs⟩
      rw [← List.cons_append] at hs
      rw [h0] at hs
      cases hs)]
    rw [ih (fun k hk => by
      have := hp (k + 1) (by simp only [List.length_cons]; omega)
      simpa using this)]
    cases hsp : splitL sep b with
    | nil => exact absurd hsp (splitL_ne_nil _ _)
    | cons h0' t => simp

theorem splitL_boundary {sep b : Str} (h : sep ≠ []) :
    splitL sep (sep ++ b) = [] :: splitL sep b := by
  obtain ⟨c, sep', rfl⟩ : ∃ c sep', sep = c :: sep' := by
    cases sep with
    | nil => exact absurd rfl h
    | cons c sep' => exact ⟨c, sep', rfl⟩
  rw [List.cons_append, splitL_matchStep ⟨by simp, charsHasStart_iff.2 (by
    rw [← List.cons_append]
    exact List.prefix_append _ _)⟩]
  congr 1
  rw [← List.cons_append, show (c :: sep' ++ b).drop (c :: sep').length = b from
    List.drop_left _ _]

theorem splitL_concat {sep a b : Str} (hsep : sep ≠ []) (h : Pno sep a (sep ++ b)) :
    splitL sep (a ++ sep ++ b) = a :: splitL sep b := by
  rw [List.append_assoc, splitL_flow a h, splitL_boundary hsep]
  simp

theorem splitL_noSub {sep a : Str} (h : charsHasSubstr a sep = false) :
    splitL sep a = [a] := by
  have hp : Pno sep a [] := by
    intro k hk
    cases hx : charsHasStart (List.drop k a ++ []) sep with
    | false => rfl
    | true =>
      rw [List.append_nil] at hx
      have hinf : sep <:+: a :=
        ((charsHasStart_iff.1 hx).isInfix).trans (List.drop_suffix k a).isInfix
      rw [charsHasSubstr_iff.2 hinf] at h
      cases h
  have := splitL_flow a hp
  rw [List.append_nil] at this
  rw [this, splitL_nil]
  simp

theorem Pno_of_head {sep a b : Str} {c : Char} (hh : sep.head? = some c) (hc : c ∉ a) :
    Pno sep a b := by
  intro k hk
  cases hx : charsHasStart (List.drop k a ++ b) sep with
  | false => rfl
  | true =>
    exfalso
    obtain ⟨s', rfl⟩ : ∃ s', sep = c :: s' := by
      cases sep with
      | nil => cases hh
      | cons x s' => exact ⟨s', by cases hh; rfl⟩
    obtain ⟨d, t, hdt⟩ : ∃ d t, List.drop k a = d :: t := by
      cases hd : List.drop k a with
      | nil =>
        have : a.length ≤ k := by
          have := congrArg List.length hd
          rw [List.length_drop] at this
          simp at this
          omega
        omega
      | cons d t => exact ⟨d, t, rfl⟩
    have hpre := charsHasStart_iff.1 hx
    rw [hdt, List.cons_append] at hpre
    rw [List.cons_prefix_cons] at hpre
    have : c ∈ List.drop k a := by
      rw [hdt, hpre.1]
      exact List.mem_cons_self _ _
    exact hc (List.drop_subset _ _ this)

/-! ## Digit rendering and float parsing round-trip -/

theorem isDigitCh_digitChar {d : Nat} (h : d < 10) : isDigitCh (digitChar d) = true := by
  interval_cases d <;> decide

theorem digitVal_digitChar {d : Nat} (h : d < 10) : digitVal (digitChar d) = d := by
  interval_cases d <;> decide

theorem ne_dot_of_isDigitCh {c : Char} (h : isDigitCh c = true) : c ≠ '.' := by
  rintro rfl
  simp [isDigitCh] at h

theorem ne_dash_of_isDigitCh {c : Char} (h : isDigitCh c = true) : c ≠ '-' := by
  rintro rfl
  simp [isDigitCh] at h

theorem natDigitsAux_eq : ∀ fuel n, n ≤ fuel → natDigitsAux fuel n = Nat.digits 10 n := by
  intro fuel
  induction fuel with
  | zero =>
    intro n h
    interval_cases n
    simp [natDigitsAux]
  | succ f ih =>
    intro n h
    cases n with
    | zero => simp [natDigitsAux]
    | succ m =>
      have hdiv : (m + 1) / 10 ≤ f := by
        have := Nat.div_lt_self (Nat.succ_pos m) (by norm_num : 1 < 10)
        omega
      rw [natDigitsAux, ih _ hdiv,
        Nat.digits_def' (by norm_num : (1 : ℕ) < 10) (Nat.succ_pos m)]

theorem foldl_digits_reverse : ∀ (ds : List Nat) (acc : Nat),
    (ds.reverse).foldl (fun a d => a * 10 + d) acc =
      acc * 10 ^ ds.length + Nat.ofDigits 10 ds := by
  intro ds
  induction ds with
  | nil =>
    intro acc
    simp [Nat.ofDigits_nil]
  | cons d ds' ih =>
    intro acc
    simp only [List.reverse_cons, List.foldl_append, List.foldl_cons, List.foldl_nil, ih,
      Nat.ofDigits_cons, List.length_cons, pow_succ]
    ring

theorem foldl_digitVal_map {ds : List Nat} (h : ∀ d ∈ ds, d < 10) (acc : Nat) :
    (ds.map digitChar).foldl (fun a c => a * 10 + digitVal c) acc =
      ds.foldl (fun a d => a * 10 + d) acc := by
  induction ds generalizing acc with
  | nil => rfl
  | cons d rest ih =>
    simp only [List.map_cons, List.foldl_cons]
    rw [digitVal_digitChar (h d (by simp))]
    exact ih (fun x hx => h x (by simp [hx])) _

theorem natToChars_digits {n : Nat} : ∀ c ∈ natToChars n, isDigitCh c = true := by
  intro c hc
  unfold natToChars at hc
  by_cases h : n = 0
  · rw [if_pos h] at hc
    simp at hc
    subst hc
    decide
  · rw [if_neg h, List.mem_reverse] at hc
    obtain ⟨d, hd, rfl⟩ := List.mem_map.1 hc
    rw [natDigitsAux_eq n n le_rfl] at hd
    exact isDigitCh_digitChar (Nat.digits_lt_base (by norm_num) hd)

theorem natToChars_ne_nil (n : Nat) : natToChars n ≠ [] := by
  unfold natToChars
  by_cases h : n = 0
  · rw [if_pos h]
    simp
  · rw [if_neg h]
    simp only [ne_eq, List.reverse_eq_nil_iff, List.map_eq_nil_iff]
    rw [natDigitsAux_eq n n le_rfl]
    exact Nat.digits_ne_nil_iff_ne_zero.2 h

theorem parseDigits_natToChars (n : Nat) : parseDigits (natToChars n) = some n := by
  unfold parseDigits
  rw [if_pos ⟨natToChars_ne_nil n, natToChars_digits⟩]
  congr 1
  by_cases h : n = 0
  · subst h
    decide
  · unfold natToChars
    rw [if_neg h, natDigitsAux_eq n n le_rfl, ← List.map_reverse,
      foldl_digitVal_map (fun d hd => Nat.digits_lt_base (by norm_num) (List.mem_reverse.1 hd)),
      foldl_digits_reverse]
    simp [Nat.ofDigits_digits]

theorem parseDigits_twoDigitChars {k : Nat} (h : k < 100) :
    parseDigits (twoDigitChars k) = some k := by
  have h1 : k / 10 < 10 := by omega
  have h2 : k % 10 < 10 := Nat.mod_lt _ (by norm_num)
  unfold parseDigits twoDigitChars
  rw [if_pos ⟨by simp, by
    intro c hc
    simp at hc
    rcases hc with rfl | rfl
    exacts [isDigitCh_digitChar h1, isDigitCh_digitChar h2]⟩]
  congr 1
  simp only [List.foldl_cons, List.foldl_nil]
  rw [digitVal_digitChar h1, digitVal_digitChar h2]
  omega

theorem takeWhile_dot_append {xs ys : Str} (h : ∀ c ∈ xs, c ≠ '.') :
    (xs ++ '.' :: ys).takeWhile (fun c => c ≠ '.') = xs ∧
      (xs ++ '.' :: ys).dropWhile (fun c => c ≠ '.') = '.' :: ys := by
  induction xs with
  | nil => simp [List.takeWhile_cons, List.dropWhile_cons]
  | cons x xs' ih =>
    have hx : x ≠ '.' := h x (by simp)
    obtain ⟨iht, ihd⟩ := ih fun c hc => h c (by simp [hc])
    constructor
    · simp only [List.cons_append, List.takeWhile_cons]
      simp only [ne_eq, decide_not] at iht ⊢
      simp [hx, iht]
    · simp only [List.cons_append, List.dropWhile_cons]
      simp only [ne_eq, decide_not] at ihd ⊢
      simp [hx, ihd]

theorem parseFloat_format2f {q : ℚ} (h : 0 ≤ q) : parseFloat (format2f q) = some (round2 q) := by
  have hneg : ¬ (q < 0) := not_lt.2 h
  unfold format2f
  rw [if_neg hneg]
  obtain ⟨c, cs, hcs⟩ : ∃ c cs, natToChars (round2N q / 100) = c :: cs := by
    cases hn : natToChars (round2N q / 100) with
    | nil => exact absurd hn (natToChars_ne_nil _)
    | cons c cs => exact ⟨c, cs, rfl⟩
  have hdig : ∀ x ∈ natToChars (round2N q / 100), x ≠ '.' :=
    fun x hx => ne_dot_of_isDigitCh (natToChars_digits x hx)
  have hcdash : c ≠ '-' := by
    have : isDigitCh c = true := natToChars_digits c (by rw [hcs]; simp)
    exact ne_dash_of_isDigitCh this
  rw [hcs, List.cons_append]
  simp only [parseFloat]
  rw [if_neg hcdash, ← List.cons_append, ← hcs]
  obtain ⟨htw, hdw⟩ :
      (natToChars (round2N q / 100) ++ '.' :: twoDigitChars (round2N q % 100)).takeWhile
          (fun c => c ≠ '.') = natToChars (round2N q / 100) ∧
        (natToChars (round2N q / 100) ++ '.' :: twoDigitChars (round2N q % 100)).dropWhile
          (fun c => c ≠ '.') = '.' :: twoDigitChars (round2N q % 100) :=
    takeWhile_dot_append hdig
  unfold parseUnsignedFloat
  rw [htw, hdw]
  simp only
  rw [if_neg (natToChars_ne_nil _), parseDigits_natToChars,
    if_neg (by simp [twoDigitChars] : ¬ (twoDigitChars (round2N q % 100) = ([] : Str))),
    parseDigits_twoDigitChars (Nat.mod_lt _ (by norm_num))]
  simp only [twoDigitChars, List.length_cons, List.length_nil]
  rw [show ((0 : Nat) + 1 + 1) = 2 from rfl]
  unfold round2
  congr 1
  have hid : (100 * (round2N q / 100) + round2N q % 100 : ℕ) = round2N q := Nat.div_add_mod _ _
  have : ((round2N q : ℕ) : ℚ) = 100 * ((round2N q / 100 : ℕ) : ℚ) + ((round2N q % 100 : ℕ) : ℚ) := by
    exact_mod_cast hid.symm
  rw [this]
  ring

/-! ## Character inventories of the formatted context -/

theorem not_mem_append_chars {c : Char} {a b : Str} (ha : c ∉ a) (hb : c ∉ b) :
    c ∉ a ++ b := by
  simp [List.mem_append, ha, hb]

theorem not_mem_of_safe {c : Char} {s : Str} (hc : safeChar c = false)
    (hs : ∀ x ∈ s, safeChar x = true) : c ∉ s := by
  intro hm
  rw [hs c hm] at hc
  cases hc

theorem not_mem_natToChars {c : Char} {n : Nat} (hc : isDigitCh c = false) :
    c ∉ natToChars n := by
  intro hm
  rw [natToChars_digits c hm] at hc
  cases hc

theorem mem_format2f {q : ℚ} (h : 0 ≤ q) :
    ∀ c ∈ format2f q, isDigitCh c = true ∨ c = '.' := by
  intro c hc
  unfold format2f at hc
  rw [if_neg (not_lt.2 h)] at hc
  rcases List.mem_append.1 hc with h1 | h2
  · exact Or.inl (natToChars_digits _ h1)
  · rcases List.mem_cons.1 h2 with rfl | h3
    · exact Or.inr rfl
    · unfold twoDigitChars at h3
      rcases List.mem_cons.1 h3 with rfl | h4
      · exact Or.inl (isDigitCh_digitChar (by omega))
      · rcases List.mem_cons.1 h4 with rfl | h5
        · exact Or.inl (isDigitCh_digitChar (Nat.mod_lt _ (by norm_num)))
        · cases h5

theorem not_mem_format2f {c : Char} {q : ℚ} (h0 : 0 ≤ q) (hc : isDigitCh c = false)
    (hd : c ≠ '.') : c ∉ format2f q := by
  intro hm
  rcases mem_format2f h0 c hm with h | h
  · rw [h] at hc
    cases hc
  · exact hd h

theorem digit_mem_headChars {c : Char} (h : isDigitCh c = true) : c ∈ headChars := by
  have hall : ∀ x ∈ "0123456789".toList, x ∈ headChars := by decide
  exact hall c (by simpa [isDigitCh] using h)

theorem mem_headerLine_parts {i : Nat} {e : CtxEntry}
    (hsrc : ∀ c ∈ e.source.toList, safeChar c = true)
    (hpage : ∀ c ∈ e.page.toList, safeChar c = true) (hrel0 : 0 ≤ e.relevance) :
    ∀ c ∈ headerLine i e, c ∈ headChars ∨ safeChar c = true := by
  intro c hc
  unfold headerLine at hc
  simp only [List.append_assoc, List.mem_append] at hc
  rcases hc with h | h | h | h | h | h | h | h | h
  · exact Or.inl ((by decide : ∀ x ∈ "[Source ".toList, x ∈ headChars) c h)
  · exact Or.inl (digit_mem_headChars (natToChars_digits c h))
  · exact Or.inl ((by decide : ∀ x ∈ ": ".toList, x ∈ headChars) c h)
  · exact Or.inr (hsrc c h)
  · exact Or.inl ((by decide : ∀ x ∈ " - Page ".toList, x ∈ headChars) c h)
  · exact Or.inr (hpage c h)
  · exact Or.inl ((by decide : ∀ x ∈ " (Relevance: ".toList, x ∈ headChars) c h)
  · rcases mem_format2f hrel0 c h with hd | hd
    · exact Or.inl (digit_mem_headChars hd)
    · exact Or.inl (hd ▸ (by decide : ('.' : Char) ∈ headChars))
  · exact Or.inl ((by decide : ∀ x ∈ ")]".toList, x ∈ headChars) c h)

theorem mem_headerLine {i : Nat} {e : CtxEntry} (hce : cleanEntry e) :
    ∀ c ∈ headerLine i e, c ∈ headChars ∨ safeChar c = true :=
  mem_headerLine_parts hce.1 hce.2.1 hce.2.2.2.1

theorem block_eq (i : Nat) (e : CtxEntry) :
    LLMService.block i e = headerLine i e ++ ['\n'] ++ (e.content.toList ++ ['\n']) := by
  simp [LLMService.block, headerLine, List.append_assoc]

theorem mem_block {i : Nat} {e : CtxEntry} (hce : cleanEntry e) :
    ∀ c ∈ LLMService.block i e, c ∈ headChars ∨ safeChar c = true ∨ c = '\n' := by
  intro c hc
  rw [block_eq] at hc
  simp only [List.append_assoc, List.mem_append] at hc
  rcases hc with h | h | h | h
  · rcases mem_headerLine hce c h with h1 | h1
    · exact Or.inl h1
    · exact Or.inr (Or.inl h1)
  · rcases List.mem_singleton.1 h with rfl
    exact Or.inr (Or.inr rfl)
  · exact Or.inr (Or.inl (hce.2.2.1 c h))
  · rcases List.mem_singleton.1 h with rfl
    exact Or.inr (Or.inr rfl)

theorem mem_formatFrom : ∀ (ctx : List CtxEntry) (i : Nat), (∀ e ∈ ctx, cleanEntry e) →
    ∀ c ∈ LLMService.formatFrom i ctx, c ∈ headChars ∨ safeChar c = true ∨ c = '\n' := by
  intro ctx
  induction ctx with
  | nil =>
    intro i _ c hc
    simp [LLMService.formatFrom] at hc
  | cons e rest ih =>
    intro i hcl c hc
    cases rest with
    | nil =>
      exact mem_block (hcl e (by simp)) c (by simpa [LLMService.formatFrom] using hc)
    | cons e2 rest2 =>
      rw [show LLMService.formatFrom i (e :: e2 :: rest2) =
          LLMService.block i e ++ "\n".toList ++ LLMService.formatFrom (i + 1) (e2 :: rest2)
        from rfl] at hc
      simp only [List.append_assoc, List.mem_append] at hc
      rcases hc with h | h | h
      · exact mem_block (hcl e (by simp)) c h
      · rcases List.mem_singleton.1 h with rfl
        exact Or.inr (Or.inr rfl)
      · exact ih (i + 1) (fun x hx => hcl x (by simp [hx])) c h

theorem not_mem_format_context {x : Char} (hx1 : x ∉ headChars) (hx2 : safeChar x = false)
    (hx3 : x ≠ '\n') (hx4 : x ∉ "No relevant context found in the knowledge base.".toList)
    {ctx : List CtxEntry} (hcl : ∀ e ∈ ctx, cleanEntry e) :
    x ∉ LLMService.format_context ctx := by
  intro hm
  unfold LLMService.format_context at hm
  by_cases hc : ctx.isEmpty
  · rw [if_pos hc] at hm
    exact hx4 hm
  · rw [if_neg hc] at hm
    rcases mem_formatFrom ctx 1 hcl x hm with h | h | h
    · exact hx1 h
    · rw [h] at hx2
      cases hx2
    · exact hx3 h

/-! ## Delimiter characters never occur in clean formatted context -/

theorem not_newline_headerLine {i : Nat} {e : CtxEntry} (hce : cleanEntry e) :
    '\n' ∉ headerLine i e := by
  intro hm
  rcases mem_headerLine hce _ hm with h | h
  · exact absurd h (by decide)
  · exact absurd h (by decide)

theorem q_not_mem_format_context {ctx : List CtxEntry} (hcl : ∀ e ∈ ctx, cleanEntry e) :
    'Q' ∉ LLMService.format_context ctx :=
  not_mem_format_context (by decide) (by decide) (by decide) (by decide) hcl

theorem c_not_mem_format_context {ctx : List CtxEntry} (hcl : ∀ e ∈ ctx, cleanEntry e) :
    'C' ∉ LLMService.format_context ctx :=
  not_mem_format_context (by decide) (by decide) (by decide) (by decide) hcl

/-! ## The fallback's context/query extraction on well-formed user messages -/

/-- No position inside `F` starts an occurrence of `"\n\nQuestion:"` when
`F` is `'Q'`-free and the separator itself follows: any such occurrence
would put the `'Q'` of the separator inside `F` or misalign with the
newlines that follow `F`. -/
theorem Pno_nq {F tail : Str} (hQ : 'Q' ∉ F) :
    Pno "\n\nQuestion:".toList F ("\n\nQuestion:".toList ++ tail) := by
  intro k hk
  cases hx : charsHasStart (List.drop k F ++ ("\n\nQuestion:".toList ++ tail))
      "\n\nQuestion:".toList with
  | false => rfl
  | true =>
    exfalso
    have hpre := charsHasStart_iff.1 hx
    have htQ : 'Q' ∉ List.drop k F := fun h => hQ (List.drop_subset _ _ h)
    have htp : List.drop k F <+:
        List.drop k F ++ ("\n\nQuestion:".toList ++ tail) := List.prefix_append _ _
    have hsep : "\n\nQuestion:".toList = '\n' :: '\n' :: 'Q' :: "uestion:".toList := by decide
    rcases List.prefix_or_prefix_of_prefix hpre htp with h1 | h2
    · exact htQ (h1.subset (by decide))
    · have hlen : 0 < (List.drop k F).length := by
        rw [List.length_drop]
        omega
      rcases List.prefix_or_prefix_of_prefix
          (show ['\n', '\n', 'Q'] <+: "\n\nQuestion:".toList from by decide) h2 with h3 | h4
      · exact htQ (h3.subset (by decide))
      · rcases hd : List.drop k F with _ | ⟨c1, t1⟩
        · rw [hd] at hlen
          simp at hlen
        · rw [hd] at h4 htQ hpre
          obtain ⟨hc1, h5⟩ := List.cons_prefix_cons.1 h4
          subst hc1
          rcases t1 with _ | ⟨c2, t2⟩
          · rw [hsep] at hpre
            simp only [List.cons_append, List.nil_append] at hpre
            obtain ⟨-, hpre⟩ := List.cons_prefix_cons.1 hpre
            obtain ⟨-, hpre⟩ := List.cons_prefix_cons.1 hpre
            obtain ⟨hQn, -⟩ := List.cons_prefix_cons.1 hpre
            exact absurd hQn (by decide)
          · obtain ⟨hc2, h6⟩ := List.cons_prefix_cons.1 h5
            subst hc2
            rcases t2 with _ | ⟨c3, t3⟩
            · rw [hsep] at hpre
              simp only [List.cons_append, List.nil_append] at hpre
              obtain ⟨-, hpre⟩ := List.cons_prefix_cons.1 hpre
              obtain ⟨-, hpre⟩ := List.cons_prefix_cons.1 hpre
              obtain ⟨hQn, -⟩ := List.cons_prefix_cons.1 hpre
              exact absurd hQn (by decide)
            · obtain ⟨hc3, -⟩ := List.cons_prefix_cons.1 h6
              subst hc3
              exact htQ (by simp)

/-- `user_message.split("Context:\n")[-1].split("\n\nQuestion:")[0]` recovers
exactly the formatted context from the user message `generate_answer`
builds, provided the query avoids the delimiters' capital letters and the
context entries are clean. -/
theorem extractContext_any {q : String} {ctx : List CtxEntry} (hC : 'C' ∉ q.toList)
    (hCF : 'C' ∉ LLMService.format_context ctx)
    (hQF : 'Q' ∉ LLMService.format_context ctx) :
    FallbackProvider.extractContext (LLMService.mkUserMessage q ctx) =
      LLMService.format_context ctx := by
  have hmsg : LLMService.mkUserMessage q ctx =
      "Context:\n".toList ++
        (LLMService.format_context ctx ++ ("\n\nQuestion: ".toList ++ q.toList)) := by
    simp [LLMService.mkUserMessage, List.append_assoc]
  have hnotail : 'C' ∉
      LLMService.format_context ctx ++ ("\n\nQuestion: ".toList ++ q.toList) := by
    intro hm
    rcases List.mem_append.1 hm with h | h
    · exact hCF h
    rcases List.mem_append.1 h with h | h
    · exact absurd h (by decide)
    · exact hC h
  have h1 : splitL "Context:\n".toList (LLMService.mkUserMessage q ctx) =
      [[], LLMService.format_context ctx ++ ("\n\nQuestion: ".toList ++ q.toList)] := by
    rw [hmsg, splitL_boundary (by decide),
      splitL_noSub (noSub_of_char (by decide) hnotail)]
  have h2 : LLMService.format_context ctx ++ ("\n\nQuestion: ".toList ++ q.toList) =
      LLMService.format_context ctx ++ "\n\nQuestion:".toList ++ (' ' :: q.toList) := by
    rw [show ("\n\nQuestion: ".toList : Str) = "\n\nQuestion:".toList ++ [' '] from by decide]
    simp [List.append_assoc]
  unfold FallbackProvider.extractContext
  rw [h1]
  simp only [List.getLastD_cons, List.getLastD_nil]
  rw [h2, splitL_concat (by decide) (Pno_nq hQF)]
  simp

/-- `user_message.split("Question: ")[-1]` recovers exactly the query from
the user message `generate_answer` builds, provided the query is `'Q'`-free
and the context entries are clean. -/
theorem extractQuery_any {q : String} {ctx : List CtxEntry}
    (hQ : 'Q' ∉ q.toList) (hQF : 'Q' ∉ LLMService.format_context ctx) :
    FallbackProvider.extractQuery (LLMService.mkUserMessage q ctx) = q.toList := by
  have hpre : 'Q' ∉
      "Context:\n".toList ++ LLMService.format_context ctx ++ "\n\n".toList := by
    intro hm
    rcases List.mem_append.1 hm with h | h
    · rcases List.mem_append.1 h with h | h
      · exact absurd h (by decide)
      · exact hQF h
    · exact absurd h (by decide)
  have hmsg : LLMService.mkUserMessage q ctx =
      "Context:\n".toList ++ LLMService.format_context ctx ++ "\n\n".toList ++
        "Question: ".toList ++ q.toList := by
    unfold LLMService.mkUserMessage
    rw [show ("\n\nQuestion: ".toList : Str) = "\n\n".toList ++ "Question: ".toList from by
      decide]
    simp [List.append_assoc]
  unfold FallbackProvider.extractQuery
  rw [hmsg, List.append_assoc
    ("Context:\n".toList ++ LLMService.format_context ctx ++ "\n\n".toList)]
  rw [show ("Context:\n".toList ++ LLMService.format_context ctx ++ "\n\n".toList) ++
      ("Question: ".toList ++ q.toList) =
      ("Context:\n".toList ++ LLMService.format_context ctx ++ "\n\n".toList) ++
        "Question: ".toList ++ q.toList from by simp [List.append_assoc]]
  rw [splitL_concat (by decide) (Pno_of_head (by decide) hpre),
    splitL_noSub (noSub_of_char (show 'Q' ∈ "Question: ".toList from by decide) hQ)]
  simp [List.getLastD_cons, List.getLastD_nil]

theorem extractContext_mk {q : String} {ctx : List CtxEntry} (hC : 'C' ∉ q.toList)
    (hcl : ∀ e ∈ ctx, cleanEntry e) :
    FallbackProvider.extractContext (LLMService.mkUserMessage q ctx) =
      LLMService.format_context ctx :=
  extractContext_any hC (c_not_mem_format_context hcl) (q_not_mem_format_context hcl)

theorem extractQuery_mk {q : String} {ctx : List CtxEntry}
    (hQ : 'Q' ∉ q.toList) (hcl : ∀ e ∈ ctx, cleanEntry e) :
    FallbackProvider.extractQuery (LLMService.mkUserMessage q ctx) = q.toList :=
  extractQuery_any hQ (q_not_mem_format_context hcl)

/-! ## The line scan on clean header, content and blank lines -/

theorem processLine_skip {acc : FallbackProvider.ScanState} {line : Str}
    (h : charsHasStart line "[Source".toList = false) :
    FallbackProvider.processLine acc line = acc := by
  unfold FallbackProvider.processLine
  rw [h]
  rfl

theorem skip_of_safe {line : Str} (hs : ∀ c ∈ line, safeChar c = true) :
    charsHasStart line "[Source".toList = false := by
  cases line with
  | nil => decide
  | cons c rest =>
    have hc := hs c (by simp)
    have hne : ¬ c = '[' := by
      intro h
      rw [h] at hc
      exact absurd hc (by decide)
    rw [show ("[Source".toList : Str) = '[' :: "Source".toList from by decide]
    simp [charsHasStart, hne]

/-- The scan step on a clean header line: the source name between `": "`
and `" - "` is collected (if new) and the two-decimal rendering of the
relevance parses back, adding `round2 relevance` to the running sum. -/
theorem processLine_header {acc : FallbackProvider.ScanState} {i : Nat} {e : CtxEntry}
    (hce : cleanEntry e) :
    FallbackProvider.processLine acc (headerLine i e) =
      ⟨if e.source.toList ∈ acc.sources then acc.sources
        else acc.sources ++ [e.source.toList],
        acc.rel_sum + round2 e.relevance, acc.rel_count + 1⟩ := by
  obtain ⟨hsrc, hpage, hcont, hrel0, hrel1⟩ := hce
  have hstart : charsHasStart (headerLine i e) "[Source".toList = true := by
    rw [charsHasStart_iff]
    refine (show ("[Source".toList : Str) <+: "[Source ".toList from by decide).trans ?_
    unfold headerLine
    simp only [List.append_assoc]
    exact List.prefix_append _ _
  have hcolA : ':' ∉ "[Source ".toList ++ natToChars i :=
    not_mem_append_chars (by decide) (not_mem_natToChars (by decide))
  have hcolC : ':' ∉ e.source.toList ++ " - Page ".toList ++ e.page.toList ++
      " (Relevance".toList :=
    not_mem_append_chars (not_mem_append_chars (not_mem_append_chars
      (not_mem_of_safe (by decide) hsrc) (by decide))
      (not_mem_of_safe (by decide) hpage)) (by decide)
  have h1 : splitL ": ".toList (headerLine i e) =
      ("[Source ".toList ++ natToChars i) ::
        (e.source.toList ++ " - Page ".toList ++ e.page.toList ++ " (Relevance".toList) ::
        splitL ": ".toList (format2f e.relevance ++ ")]".toList) := by
    have e1 : headerLine i e =
        ("[Source ".toList ++ natToChars i) ++ ": ".toList ++
          (e.source.toList ++ " - Page ".toList ++ e.page.toList ++ " (Relevance".toList ++
            ": ".toList ++ (format2f e.relevance ++ ")]".toList)) := by
      unfold headerLine
      rw [show (" (Relevance: ".toList : Str) = " (Relevance".toList ++ ": ".toList from by
        decide]
      simp [List.append_assoc]
    rw [e1, splitL_concat (by decide) (Pno_of_head (by decide) hcolA)]
    congr 1
    rw [show e.source.toList ++ " - Page ".toList ++ e.page.toList ++ " (Relevance".toList ++
        ": ".toList ++ (format2f e.relevance ++ ")]".toList) =
        (e.source.toList ++ " - Page ".toList ++ e.page.toList ++ " (Relevance".toList) ++
          ": ".toList ++ (format2f e.relevance ++ ")]".toList) from by
      simp [List.append_assoc]]
    rw [splitL_concat (by decide) (Pno_of_head (by decide) hcolC)]
  have hsub : charsHasSubstr (headerLine i e) "Relevance:".toList = true := by
    have e2 : headerLine i e =
        ("[Source ".toList ++ natToChars i ++ ": ".toList ++ e.source.toList ++
          " - Page ".toList ++ e.page.toList ++ " (".toList) ++
          ("Relevance:".toList ++ (' ' :: (format2f e.relevance ++ ")]".toList))) := by
      unfold headerLine
      rw [show (" (Relevance: ".toList : Str) = " (".toList ++ ("Relevance:".toList ++ [' '])
        from by decide]
      simp [List.append_assoc]
    rw [e2]
    exact sub_intro _ _ _
  have hRP : 'R' ∉ "[Source ".toList ++ natToChars i ++ ": ".toList ++ e.source.toList ++
      " - Page ".toList ++ e.page.toList ++ " (".toList :=
    not_mem_append_chars (not_mem_append_chars (not_mem_append_chars (not_mem_append_chars
      (not_mem_append_chars (not_mem_append_chars (by decide)
        (not_mem_natToChars (by decide))) (by decide))
      (not_mem_of_safe (by decide) hsrc)) (by decide))
      (not_mem_of_safe (by decide) hpage)) (by decide)
  have hRf2 : 'R' ∉ format2f e.relevance ++ ")]".toList :=
    not_mem_append_chars (not_mem_format2f hrel0 (by decide) (by decide)) (by decide)
  have h3 : splitL "Relevance: ".toList (headerLine i e) =
      ("[Source ".toList ++ natToChars i ++ ": ".toList ++ e.source.toList ++
        " - Page ".toList ++ e.page.toList ++ " (".toList) ::
        [format2f e.relevance ++ ")]".toList] := by
    have e3 : headerLine i e =
        ("[Source ".toList ++ natToChars i ++ ": ".toList ++ e.source.toList ++
          " - Page ".toList ++ e.page.toList ++ " (".toList) ++ "Relevance: ".toList ++
          (format2f e.relevance ++ ")]".toList) := by
      unfold headerLine
      rw [show (" (Relevance: ".toList : Str) = " (".toList ++ "Relevance: ".toList from by
        decide]
      simp [List.append_assoc]
    rw [e3, splitL_concat (by decide) (Pno_of_head (by decide) hRP),
      splitL_noSub (noSub_of_char (by decide) hRf2)]
  have hPar : ')' ∉ format2f e.relevance := not_mem_format2f hrel0 (by decide) (by decide)
  have h4 : splitL [')'] (format2f e.relevance ++ ")]".toList) =
      format2f e.relevance :: splitL [')'] [']'] := by
    rw [show format2f e.relevance ++ ")]".toList =
        format2f e.relevance ++ [')'] ++ [']'] from by
      rw [show (")]".toList : Str) = [')'] ++ [']'] from by decide]
      simp [List.append_assoc]]
    exact splitL_concat (by decide) (Pno_of_head rfl hPar)
  have hspS : ' ' ∉ e.source.toList := not_mem_of_safe (by decide) hsrc
  have h5 : (splitL " - ".toList
      (e.source.toList ++ " - Page ".toList ++ e.page.toList ++ " (Relevance".toList)).headD
        [] = e.source.toList := by
    rw [show e.source.toList ++ " - Page ".toList ++ e.page.toList ++ " (Relevance".toList =
        e.source.toList ++ " - ".toList ++
          ("Page ".toList ++ e.page.toList ++ " (Relevance".toList) from by
      rw [show (" - Page ".toList : Str) = " - ".toList ++ "Page ".toList from by decide]
      simp [List.append_assoc]]
    rw [splitL_concat (by decide) (Pno_of_head (by decide) hspS)]
    rfl
  have hpf : parseFloat ((splitL [')']
      (format2f e.relevance ++ ")]".toList)).headD []) = some (round2 e.relevance) := by
    rw [h4]
    simp only [List.headD_cons]
    exact parseFloat_format2f hrel0
  unfold FallbackProvider.processLine
  rw [hstart]
  simp only [h1, h3, hsub, h5, hpf, if_true]

/-! ## Splitting the formatted context into lines and scanning them -/

/-- Splitting one clean block on newlines yields the header line, the
content line, and a blank from the block's trailing newline. -/
theorem lines_block {i : Nat} {e : CtxEntry} (hce : cleanEntry e) :
    splitL ['\n'] (LLMService.block i e) = [headerLine i e, e.content.toList, []] := by
  have hnl : ((['\n'] : Str)).head? = some '\n' := rfl
  rw [block_eq,
    splitL_concat (by decide) (Pno_of_head hnl (not_newline_headerLine hce))]
  rw [show e.content.toList ++ ['\n'] = e.content.toList ++ ['\n'] ++ [] from by simp]
  rw [splitL_concat (by decide)
    (Pno_of_head hnl (not_mem_of_safe (by decide) hce.2.2.1))]
  rw [splitL_nil]

theorem lines_formatFrom :
    ∀ (ctx : List CtxEntry) (i : Nat), (∀ e ∈ ctx, cleanEntry e) →
      splitL ['\n'] (LLMService.formatFrom i ctx) = linesOf i ctx := by
  intro ctx
  induction ctx with
  | nil =>
    intro i _
    rw [show LLMService.formatFrom i [] = [] from rfl, splitL_nil]
    rfl
  | cons e rest ih =>
    intro i hcl
    have hce := hcl e (by simp)
    cases rest with
    | nil =>
      rw [show LLMService.formatFrom i [e] = LLMService.block i e from rfl, lines_block hce]
      rfl
    | cons e2 rest2 =>
      have hstep : LLMService.formatFrom i (e :: e2 :: rest2) =
          headerLine i e ++ ['\n'] ++
            (e.content.toList ++ ['\n'] ++ (['\n'] ++
              LLMService.formatFrom (i + 1) (e2 :: rest2))) := by
        rw [show LLMService.formatFrom i (e :: e2 :: rest2) =
            LLMService.block i e ++ "\n".toList ++ LLMService.formatFrom (i + 1) (e2 :: rest2)
          from rfl, block_eq]
        simp [List.append_assoc]
      have hnl : ((['\n'] : Str)).head? = some '\n' := rfl
      rw [hstep,
        splitL_concat (by decide) (Pno_of_head hnl (not_newline_headerLine hce))]
      rw [splitL_concat (by decide)
        (Pno_of_head hnl (not_mem_of_safe (by decide) hce.2.2.1))]
      rw [splitL_boundary (by decide), ih (i + 1) (fun x hx => hcl x (by simp [hx]))]
      rfl

/-- Folding the scan step over the line decomposition of a clean context:
each entry contributes its source name (deduplicated, first occurrence
order) and the two-decimal rounding of its relevance. -/
theorem scan_linesOf :
    ∀ (ctx : List CtxEntry) (i : Nat) (acc : FallbackProvider.ScanState),
      (∀ e ∈ ctx, cleanEntry e) →
      (linesOf i ctx).foldl FallbackProvider.processLine acc =
        ⟨ctx.foldl (fun a e => if e.source.toList ∈ a then a else a ++ [e.source.toList])
            acc.sources,
          acc.rel_sum + (ctx.map fun e => round2 e.relevance).sum,
          acc.rel_count + ctx.length⟩ := by
  have hnilskip : charsHasStart ([] : Str) "[Source".toList = false := by decide
  intro ctx
  induction ctx with
  | nil =>
    intro i acc _
    rw [show linesOf i [] = [[]] from rfl]
    simp only [List.foldl_cons, List.foldl_nil]
    rw [processLine_skip hnilskip]
    cases acc
    simp
  | cons e rest ih =>
    intro i acc hcl
    have hce := hcl e (by simp)
    cases rest with
    | nil =>
      rw [show linesOf i [e] = [headerLine i e, e.content.toList, []] from rfl]
      simp only [List.foldl_cons, List.foldl_nil]
      rw [processLine_header hce, processLine_skip (skip_of_safe hce.2.2.1),
        processLine_skip hnilskip]
      simp
    | cons e2 rest2 =>
      rw [show linesOf i (e :: e2 :: rest2) =
          headerLine i e :: e.content.toList :: [] :: linesOf (i + 1) (e2 :: rest2) from rfl]
      simp only [List.foldl_cons]
      rw [processLine_header hce, processLine_skip (skip_of_safe hce.2.2.1),
        processLine_skip hnilskip]
      rw [ih (i + 1) _ (fun x hx => hcl x (by simp [hx]))]
      simp only [List.foldl_cons, List.map_cons, List.sum_cons, List.length_cons,
        FallbackProvider.ScanState.mk.injEq]
      refine ⟨trivial, by ring, by omega⟩

/-! ## The fallback provider on well-formed user messages -/

/-- On the empty retrieval context the user message carries the no-context
sentinel, and the fallback's sentinel branch fires: confidence 0.1, no
sources, incomplete, and one high-priority suggestion naming the query. -/
theorem fallback_sentinel_eq {q : String} (hC : 'C' ∉ q.toList) (hQ : 'Q' ∉ q.toList) :
    FallbackProvider.generate_completion (LLMService.mkUserMessage q []) =
      { answer := some
          ("I couldn't find relevant information in the knowledge base to answer: '".toList
            ++ q.toList ++ "'. Please upload documents related to this topic.".toList)
        confidence := some (1 / 10)
        sources_used := some []
        is_complete := some false
        missing_information := some ["Information about: ".toList ++ q.toList]
        enrichment_suggestions := some [⟨some q.toList,
          some ("Upload documents containing information about ".toList ++ q.toList),
          some "high".toList⟩]
        reasoning := some "No relevant documents found in the knowledge base.".toList } := by
  have hctx : FallbackProvider.extractContext (LLMService.mkUserMessage q []) =
      LLMService.format_context [] := extractContext_mk hC (by intro e he; cases he)
  have hqr : FallbackProvider.extractQuery (LLMService.mkUserMessage q []) = q.toList :=
    extractQuery_mk hQ (by intro e he; cases he)
  unfold FallbackProvider.generate_completion
  rw [hctx, hqr]
  rw [show LLMService.format_context [] =
      "No relevant context found in the knowledge base.".toList from rfl]
  simp only [show charsHasSubstr "No relevant context found in the knowledge base.".toList
      "No relevant context found".toList = true from by decide, if_true]

/-- On a non-empty clean context the fallback's scan branch fires, with the
mean of the two-decimal-rounded relevance scores capped at 0.65 as the
confidence and the deduplicated source names as the citations. -/
theorem fallback_clean_eq {q : String} {ctx : List CtxEntry} (hC : 'C' ∉ q.toList)
    (hQ : 'Q' ∉ q.toList) (hcl : ∀ e ∈ ctx, cleanEntry e) (hne : ctx ≠ []) :
    FallbackProvider.generate_completion (LLMService.mkUserMessage q ctx) =
      { answer := some (if (2 / 5 : ℚ) <
            min ((ctx.map fun e => round2 e.relevance).sum / (ctx.length : ℚ)) (13 / 20) then
            "Based on the available documents:\n\n".toList ++
              (LLMService.formatFrom 1 ctx).take 800 ++
              (if 800 < (LLMService.formatFrom 1 ctx).length then
                "...\n\n(More information available in source documents)".toList else [])
          else "I found some information, but it may not be highly relevant to: '".toList ++
            q.toList ++ "'".toList)
        confidence := some
          (min ((ctx.map fun e => round2 e.relevance).sum / (ctx.length : ℚ)) (13 / 20))
        sources_used := some (ctx.foldl
          (fun a e => if e.source.toList ∈ a then a else a ++ [e.source.toList]) [])
        is_complete := some (decide ((1 / 2 : ℚ) <
          min ((ctx.map fun e => round2 e.relevance).sum / (ctx.length : ℚ)) (13 / 20)))
        missing_information := if decide ((1 / 2 : ℚ) <
            min ((ctx.map fun e => round2 e.relevance).sum / (ctx.length : ℚ)) (13 / 20)) then
            none
          else some ["More comprehensive information on this topic".toList]
        enrichment_suggestions := if decide ((1 / 2 : ℚ) <
            min ((ctx.map fun e => round2 e.relevance).sum / (ctx.length : ℚ)) (13 / 20)) then
            none
          else some [⟨some q.toList,
            some "Upload more detailed documents about this specific topic".toList,
            some "medium".toList⟩]
        reasoning := some ("Rule-based response (relevance: ".toList ++
          format2f ((ctx.map fun e => round2 e.relevance).sum / (ctx.length : ℚ)) ++
          "). Configure an LLM provider for better results.".toList) } := by
  have hFC : LLMService.format_context ctx = LLMService.formatFrom 1 ctx := by
    unfold LLMService.format_context
    rw [if_neg (by simp [List.isEmpty_iff, hne])]
  have hctx := extractContext_mk hC hcl
  have hqr := extractQuery_mk hQ hcl
  have hN : charsHasSubstr (LLMService.formatFrom 1 ctx)
      "No relevant context found".toList = false := by
    apply noSub_of_char (show 'N' ∈ "No relevant context found".toList from by decide)
    intro hm
    rcases mem_formatFrom ctx 1 hcl 'N' hm with h | h | h
    · exact absurd h (by decide)
    · exact absurd h (by decide)
    · exact absurd h (by decide)
  have hcnt : 0 < ctx.length := List.length_pos.2 hne
  unfold FallbackProvider.generate_completion
  rw [hctx, hqr, hFC]
  simp only [hN, Bool.false_eq_true, if_false, lines_formatFrom ctx 1 hcl,
    scan_linesOf ctx 1 ⟨[], 0, 0⟩ hcl, zero_add, Nat.zero_add]
  rw [if_pos hcnt]
  by_cases hic : (1 / 2 : ℚ) <
      min ((ctx.map fun e => round2 e.relevance).sum / (ctx.length : ℚ)) (13 / 20)
  · simp only [decide_eq_true hic, eq_self_iff_true, if_true, List.isEmpty_nil]
  · simp only [decide_eq_false hic, Bool.false_eq_true, if_false, List.isEmpty_cons]

/-! ## Bounds on the rounded relevance scores and their mean -/

theorem round2_nonneg (q : ℚ) : 0 ≤ round2 q := by
  unfold round2
  positivity

theorem round2N_le_100 {q : ℚ} (h1 : q ≤ 1) : round2N q ≤ 100 := by
  unfold round2N
  have hd : 0 < q.den := q.pos
  have hnum : q.num ≤ (q.den : ℤ) := by
    have h3 := mul_le_mul_of_nonneg_right h1 (show (0 : ℚ) ≤ (q.den : ℚ) by positivity)
    rw [one_mul] at h3
    have h2 : (q.num : ℚ) ≤ (q.den : ℚ) := by
      calc (q.num : ℚ) = (q.num : ℚ) / (q.den : ℚ) * (q.den : ℚ) := by
            field_simp
        _ = q * (q.den : ℚ) := by rw [Rat.num_div_den]
        _ ≤ (q.den : ℚ) := h3
    exact_mod_cast h2
  have htn : q.num.toNat ≤ q.den := by omega
  have hlt : (200 * q.num.toNat + q.den) / (2 * q.den) < 101 := by
    rw [Nat.div_lt_iff_lt_mul (by omega)]
    omega
  omega

theorem round2_le_one {q : ℚ} (h1 : q ≤ 1) : round2 q ≤ 1 := by
  have hb := round2N_le_100 h1
  unfold round2
  rw [div_le_one (by norm_num)]
  exact_mod_cast hb

theorem mean_round2_bounds {ctx : List CtxEntry} (hcl : ∀ e ∈ ctx, cleanEntry e)
    (hne : ctx ≠ []) :
    0 ≤ (ctx.map fun e => round2 e.relevance).sum / (ctx.length : ℚ) ∧
      (ctx.map fun e => round2 e.relevance).sum / (ctx.length : ℚ) ≤ 1 := by
  have hlen : 0 < ctx.length := List.length_pos.2 hne
  have hlenQ : (0 : ℚ) < (ctx.length : ℚ) := by exact_mod_cast hlen
  constructor
  · apply div_nonneg _ hlenQ.le
    apply List.sum_nonneg
    intro x hx
    obtain ⟨e, _, rfl⟩ := List.mem_map.1 hx
    exact round2_nonneg _
  · rw [div_le_one hlenQ]
    have hb := List.sum_le_card_nsmul (ctx.map fun e => round2 e.relevance) 1 ?_
    · simpa [List.length_map, nsmul_eq_mul] using hb
    · intro x hx
      obtain ⟨e, he, rfl⟩ := List.mem_map.1 hx
      exact round2_le_one (hcl e he).2.2.2.2

/-! ## Embedder demotion across a call sequence -/

theorem runCalls_demoted :
    ∀ (calls : List (Bool × Bool)) (st : EmbeddingService.EmbedderState),
      st.use_openai = false →
      EmbeddingService.runCalls st calls =
        (st, calls.map fun _ =>
          (false, Except.ok EmbeddingService.EmbedMethod.local_model)) := by
  intro calls
  induction calls with
  | nil => intro st _; rfl
  | cons f rest ih =>
    intro st h
    have hg : (st.use_openai && st.has_openai_client) = false := by
      rw [h]
      rfl
    have hstep : EmbeddingService.generate_embedding st f.1 f.2 =
        (st, Except.ok EmbeddingService.EmbedMethod.local_model) := by
      unfold EmbeddingService.generate_embedding
      rw [hg]
      rfl
    simp only [EmbeddingService.runCalls, hstep, ih st h, EmbeddingService.remoteInvoked, hg,
      List.map_cons]

/-! ## The completeness evaluator on explicit raw results -/

/-- The fallback's raw result never pairs `is_complete = true` with a
present `missing_information` or `enrichment_suggestions`: both are built
from the same `is_complete` test. -/
theorem fallback_invariant (um : Str) :
    (FallbackProvider.generate_completion um).is_complete = some true →
      (FallbackProvider.generate_completion um).missing_information = none ∧
      (FallbackProvider.generate_completion um).enrichment_suggestions = none := by
  unfold FallbackProvider.generate_completion
  by_cases hs : charsHasSubstr (FallbackProvider.extractContext um)
      "No relevant context found".toList = true
  · simp only [hs, if_true]
    intro h
    exact absurd (Option.some.inj h) (by decide)
  · rw [Bool.not_eq_true] at hs
    simp only [hs, Bool.false_eq_true, if_false]
    intro h
    have hd := Option.some.inj h
    simp only [hd, eq_self_iff_true, if_true, List.isEmpty_nil]
    exact ⟨trivial, trivial⟩

/-- Inversion of a successful `generate_answer` on a provider-returned raw
dict: every field of the response is copied from the raw dict, the id is
the fresh one, and the suggestions are the parsed pass-through (absent or
empty list becoming absent). -/
theorem generate_answer_ok {qid : Str} {r : RawDict} {q : String} {ctx : List CtxEntry}
    {resp : AnswerResponse}
    (h : LLMService.generate_answer qid (some r) q ctx = Except.ok resp) :
    r.is_complete = some resp.is_complete ∧
    resp.missing_information = r.missing_information ∧
    (match r.enrichment_suggestions with
     | some (s :: rest) => ∃ l, (s :: rest).mapM LLMService.parseSuggestion = Except.ok l ∧
         resp.enrichment_suggestions = some l
     | _ => resp.enrichment_suggestions = none) ∧
    r.answer = some resp.answer ∧ r.confidence = some resp.confidence ∧
    r.sources_used = some resp.sources_used ∧ r.reasoning = some resp.reasoning ∧
    resp.query_id = qid := by
  rcases r with ⟨a, c, s, ic, mi, esug, rs⟩
  have hcore : ∀ (es : Option (List EnrichmentSuggestion)),
      (match (⟨a, c, s, ic, mi, esug, rs⟩ : RawDict).enrichment_suggestions with
        | some (s0 :: rest) =>
          Except.map some ((s0 :: rest).mapM LLMService.parseSuggestion)
        | _ => (Except.ok none : Except String (Option (List EnrichmentSuggestion)))) =
          Except.ok es →
      (match LLMService.reqField a "answer", LLMService.reqField c "confidence",
          LLMService.reqField s "sources_used", LLMService.reqField ic "is_complete",
          LLMService.reqField rs "reasoning" with
        | Except.ok ans, Except.ok conf, Except.ok srcs, Except.ok icv, Except.ok rsv =>
          if 0 ≤ conf ∧ conf ≤ 1 then
            Except.ok (⟨qid, ans, conf, srcs, icv, mi, es, rsv⟩ : AnswerResponse)
          else Except.error "ValidationError: confidence must be between 0 and 1"
        | Except.error e, _, _, _, _ => Except.error e
        | _, Except.error e, _, _, _ => Except.error e
        | _, _, Except.error e, _, _ => Except.error e
        | _, _, _, Except.error e, _ => Except.error e
        | _, _, _, _, Except.error e => Except.error e) = Except.ok resp →
      ic = some resp.is_complete ∧ resp.missing_information = mi ∧
        resp.enrichment_suggestions = es ∧ a = some resp.answer ∧
        c = some resp.confidence ∧ s = some resp.sources_used ∧ rs = some resp.reasoning ∧
        resp.query_id = qid := by
    intro es hsug hmain
    cases a with
    | none => exact absurd hmain (by simp [LLMService.reqField])
    | some av =>
    cases c with
    | none => exact absurd hmain (by simp [LLMService.reqField])
    | some cv =>
    cases s with
    | none => exact absurd hmain (by simp [LLMService.reqField])
    | some sv =>
    cases ic with
    | none => exact absurd hmain (by simp [LLMService.reqField])
    | some icv =>
    cases rs with
    | none => exact absurd hmain (by simp [LLMService.reqField])
    | some rsv =>
    simp only [LLMService.reqField] at hmain
    by_cases hcv : 0 ≤ cv ∧ cv ≤ 1
    · rw [if_pos hcv] at hmain
      obtain rfl := (Except.ok.inj hmain).symm
      exact ⟨rfl, rfl, rfl, rfl, rfl, rfl, rfl, rfl⟩
    · rw [if_neg hcv] at hmain
      exact absurd hmain (by simp)
  rcases esug with _ | ⟨_ | ⟨s0, rest⟩⟩
  · have h2 := hcore none rfl h
    exact ⟨h2.1, h2.2.1, h2.2.2.1, h2.2.2.2⟩
  · have h2 := hcore none rfl h
    exact ⟨h2.1, h2.2.1, h2.2.2.1, h2.2.2.2⟩
  · cases hm : (s0 :: rest).mapM LLMService.parseSuggestion with
    | error e =>
      exfalso
      have hga : LLMService.generate_answer qid
          (some ⟨a, c, s, ic, mi, some (s0 :: rest), rs⟩) q ctx = Except.error e := by
        unfold LLMService.generate_answer
        simp only [hm]
        rfl
      rw [hga] at h
      exact absurd h (by simp)
    | ok l =>
      have hsug : (match (⟨a, c, s, ic, mi, some (s0 :: rest), rs⟩ : RawDict).enrichment_suggestions
          with
          | some (s1 :: rest1) =>
            Except.map some ((s1 :: rest1).mapM LLMService.parseSuggestion)
          | _ => (Except.ok none : Except String (Option (List EnrichmentSuggestion)))) =
          Except.ok (some l) := by
        simp only [hm]
        rfl
      unfold LLMService.generate_answer at h
      simp only [hm, Except.map_ok] at h
      have h2 := hcore (some l) hsug h
      exact ⟨h2.1, h2.2.1, ⟨l, hm, h2.2.2.1⟩, h2.2.2.2⟩

/-- Evaluation of `generate_answer` on a raw dict with every required key
present: the range check passes when the confidence is in [0, 1], and the
parsed suggestions are the given ones. -/
theorem generate_answer_some_allok (qid : Str) (av : Str) {cv : ℚ} (sv : List Str)
    (icv : Bool) (mi : Option (List Str)) (rsv : Str) (hc : 0 ≤ cv ∧ cv ≤ 1)
    (esug : Option (List SuggDict)) {es : Option (List EnrichmentSuggestion)}
    (hsug : (match esug with
      | some (s :: rest) => Except.map some ((s :: rest).mapM LLMService.parseSuggestion)
      | _ => (Except.ok none : Except String (Option (List EnrichmentSuggestion)))) =
        Except.ok es) (q : String) (ctx : List CtxEntry) :
    LLMService.generate_answer qid
        (some ⟨some av, some cv, some sv, some icv, mi, esug, some rsv⟩) q ctx =
      Except.ok ⟨qid, av, cv, sv, icv, mi, es, rsv⟩ := by
  have h1 : (match (⟨some av, some cv, some sv, some icv, mi, esug,
      some rsv⟩ : RawDict).enrichment_suggestions with
      | some (s :: rest) => Except.map some ((s :: rest).mapM LLMService.parseSuggestion)
      | _ => (Except.ok none : Except String (Option (List EnrichmentSuggestion)))) =
        Except.ok es := hsug
  unfold LLMService.generate_answer
  simp only [h1, LLMService.reqField]
  rw [if_pos hc]

/-- The same evaluation when the active provider raised and the raw dict is
the fallback provider's result on the built user message. -/
theorem generate_answer_none_eval (qid : Str) (q : String) (ctx : List CtxEntry)
    {av : Str} {cv : ℚ} {sv : List Str} {icv : Bool} {mi : Option (List Str)}
    {esug : Option (List SuggDict)} {rsv : Str}
    (hfb : FallbackProvider.generate_completion (LLMService.mkUserMessage q ctx) =
      ⟨some av, some cv, some sv, some icv, mi, esug, some rsv⟩)
    (hc : 0 ≤ cv ∧ cv ≤ 1) {es : Option (List EnrichmentSuggestion)}
    (hsug : (match esug with
      | some (s :: rest) => Except.map some ((s :: rest).mapM LLMService.parseSuggestion)
      | _ => (Except.ok none : Except String (Option (List EnrichmentSuggestion)))) =
        Except.ok es) :
    LLMService.generate_answer qid none q ctx =
      Except.ok ⟨qid, av, cv, sv, icv, mi, es, rsv⟩ := by
  have h1 : (match (⟨some av, some cv, some sv, some icv, mi, esug,
      some rsv⟩ : RawDict).enrichment_suggestions with
      | some (s :: rest) => Except.map some ((s :: rest).mapM LLMService.parseSuggestion)
      | _ => (Except.ok none : Except String (Option (List EnrichmentSuggestion)))) =
        Except.ok es := hsug
  unfold LLMService.generate_answer
  simp only [hfb, h1, LLMService.reqField]
  rw [if_pos hc]

section EvaluatorTheorems

/-- C1 counterexample: a raw provider result carrying `is_complete = true`
together with a non-empty `missing_information` and non-empty
`enrichment_suggestions` passes through `generate_answer` into a
successful response that keeps both fields — nothing is stripped before
the verdict is returned. -/
theorem c1_counterexample :
    ∃ resp : AnswerResponse,
      LLMService.generate_answer [] (some ⟨some "a".toList, some (9 / 10),
          some ["doc.txt".toList], some true, some ["gap one".toList],
          some [⟨some "topic".toList, some "act".toList, some "high".toList⟩],
          some "r".toList⟩) "q" [] = Except.ok resp ∧
      resp.is_complete = true ∧
      resp.missing_information = some ["gap one".toList] ∧
      resp.enrichment_suggestions = some [⟨"topic".toList, "act".toList, "high".toList⟩] :=
  ⟨⟨[], "a".toList, 9 / 10, ["doc.txt".toList], true, some ["gap one".toList],
      some [⟨"topic".toList, "act".toList, "high".toList⟩], "r".toList⟩,
    generate_answer_some_allok [] "a".toList ["doc.txt".toList] true
      (some ["gap one".toList]) "r".toList (by norm_num) _ rfl "q" [],
    rfl, rfl, rfl⟩

/-- C1 amended: `generate_answer` performs no stripping — on a successful
return, `is_complete` and `missing_information` come back exactly as in the
raw provider result, and `enrichment_suggestions` differs only by mapping
an absent or empty list to the absent value — so the shape invariant holds
for the finalized answer exactly when the raw result already satisfies it.
The built-in rule-based fallback provider's raw results always satisfy it:
whenever it reports `is_complete = true`, both optional fields are
absent. -/
theorem c1_no_stripping :
    (∀ (qid : Str) (r : RawDict) (q : String) (ctx : List CtxEntry)
        (resp : AnswerResponse),
      LLMService.generate_answer qid (some r) q ctx = Except.ok resp →
        r.is_complete = some resp.is_complete ∧
        resp.missing_information = r.missing_information ∧
        (match r.enrichment_suggestions with
         | some (s :: rest) => ∃ l,
             (s :: rest).mapM LLMService.parseSuggestion = Except.ok l ∧
             resp.enrichment_suggestions = some l
         | _ => resp.enrichment_suggestions = none)) ∧
    (∀ um : Str, (FallbackProvider.generate_completion um).is_complete = some true →
      (FallbackProvider.generate_completion um).missing_information = none ∧
      (FallbackProvider.generate_completion um).enrichment_suggestions = none) :=
  ⟨fun _ _ _ _ _ h =>
    ⟨(generate_answer_ok h).1, (generate_answer_ok h).2.1, (generate_answer_ok h).2.2.1⟩,
    fallback_invariant⟩

/-- C1 witness: a concrete raw result with `is_complete = false` and a
present suggestion list is passed through unchanged by a successful
`generate_answer`, as the amended statement asserts. -/
theorem c1_no_stripping_witness :
    (⟨some "b".toList, some (1 / 2), some [], some false, none,
        some [⟨some "t2".toList, some "a2".toList, some "low".toList⟩],
        some "r2".toList⟩ : RawDict).is_complete =
      some ((⟨[], "b".toList, 1 / 2, [], false, none,
        some [⟨"t2".toList, "a2".toList, "low".toList⟩],
        "r2".toList⟩ : AnswerResponse).is_complete) ∧
    (⟨[], "b".toList, 1 / 2, [], false, none,
        some [⟨"t2".toList, "a2".toList, "low".toList⟩],
        "r2".toList⟩ : AnswerResponse).missing_information =
      (⟨some "b".toList, some (1 / 2), some [], some false, none,
        some [⟨some "t2".toList, some "a2".toList, some "low".toList⟩],
        some "r2".toList⟩ : RawDict).missing_information ∧
    ∃ l, ([⟨some "t2".toList, some "a2".toList, some "low".toList⟩] :
        List SuggDict).mapM LLMService.parseSuggestion = Except.ok l ∧
      (⟨[], "b".toList, 1 / 2, [], false, none,
        some [⟨"t2".toList, "a2".toList, "low".toList⟩],
        "r2".toList⟩ : AnswerResponse).enrichment_suggestions = some l :=
  c1_no_stripping.1 [] ⟨some "b".toList, some (1 / 2), some [], some false, none,
      some [⟨some "t2".toList, some "a2".toList, some "low".toList⟩], some "r2".toList⟩
    "q" []
    ⟨[], "b".toList, 1 / 2, [], false, none,
      some [⟨"t2".toList, "a2".toList, "low".toList⟩], "r2".toList⟩
    (generate_answer_some_allok [] "b".toList [] false none "r2".toList (by norm_num) _
      rfl "q" [])

/-- C2 counterexample: a provider that returns syntactically valid content
of the wrong shape — here a result object with none of the required keys —
does not fall back: `generate_answer` raises the `KeyError` to the caller
instead of answering with the rule-based provider's response. -/
theorem c2_counterexample :
    LLMService.generate_answer [] (some ⟨none, none, none, none, none, none, none⟩)
        "q" [] = Except.error "KeyError: answer" := rfl

/-- C2 amended: when the active provider raises (throws, times out, or its
content fails JSON parsing), `generate_answer` returns — without raising —
a response whose fields are exactly the rule-based fallback provider's
result on the same user message, provided the retrieval context is clean
(delimiter-free source/page/content, scores in [0, 1]) and the query avoids
the parser's capital delimiter letters.  (The counterexample shows the
unconditional claim fails for wrong-shape provider results, which raise.) -/
theorem c2_fallback_terminal (qid : Str) (q : String) (ctx : List CtxEntry)
    (hC : 'C' ∉ q.toList) (hQ : 'Q' ∉ q.toList) (hcl : ∀ e ∈ ctx, cleanEntry e) :
    ∃ resp : AnswerResponse,
      LLMService.generate_answer qid none q ctx = Except.ok resp ∧
      some resp.answer =
        (FallbackProvider.generate_completion (LLMService.mkUserMessage q ctx)).answer ∧
      some resp.confidence =
        (FallbackProvider.generate_completion (LLMService.mkUserMessage q ctx)).confidence ∧
      some resp.sources_used =
        (FallbackProvider.generate_completion (LLMService.mkUserMessage q ctx)).sources_used ∧
      some resp.is_complete =
        (FallbackProvider.generate_completion (LLMService.mkUserMessage q ctx)).is_complete ∧
      some resp.reasoning =
        (FallbackProvider.generate_completion (LLMService.mkUserMessage q ctx)).reasoning := by
  cases ctx with
  | nil =>
    have hfb := fallback_sentinel_eq hC hQ
    refine ⟨⟨qid,
      "I couldn't find relevant information in the knowledge base to answer: '".toList ++
        q.toList ++ "'. Please upload documents related to this topic.".toList,
      1 / 10, [], false, some ["Information about: ".toList ++ q.toList],
      some [⟨q.toList, "Upload documents containing information about ".toList ++ q.toList,
        "high".toList⟩],
      "No relevant documents found in the knowledge base.".toList⟩,
      generate_answer_none_eval qid q [] hfb (by norm_num) rfl, ?_, ?_, ?_, ?_, ?_⟩ <;>
      rw [hfb]
  | cons e rest =>
    have hne : (e :: rest : List CtxEntry) ≠ [] := List.cons_ne_nil _ _
    have hfb := fallback_clean_eq hC hQ hcl hne
    obtain ⟨hm0, hm1⟩ := mean_round2_bounds hcl hne
    have hc0 : (0 : ℚ) ≤ min (((e :: rest).map fun x => round2 x.relevance).sum /
        ((e :: rest : List CtxEntry).length : ℚ)) (13 / 20) := le_min hm0 (by norm_num)
    have hc1 : min (((e :: rest).map fun x => round2 x.relevance).sum /
        ((e :: rest : List CtxEntry).length : ℚ)) (13 / 20) ≤ 1 :=
      (min_le_right _ _).trans (by norm_num)
    by_cases hic : (1 / 2 : ℚ) < min (((e :: rest).map fun x => round2 x.relevance).sum /
        ((e :: rest : List CtxEntry).length : ℚ)) (13 / 20)
    · simp only [decide_eq_true hic, eq_self_iff_true, if_true] at hfb
      exact ⟨_, generate_answer_none_eval qid q (e :: rest) hfb ⟨hc0, hc1⟩ rfl,
        by rw [hfb], by rw [hfb], by rw [hfb], by rw [hfb], by rw [hfb]⟩
    · simp only [decide_eq_false hic, Bool.false_eq_true, if_false] at hfb
      exact ⟨_, generate_answer_none_eval qid q (e :: rest) hfb ⟨hc0, hc1⟩ rfl,
        by rw [hfb], by rw [hfb], by rw [hfb], by rw [hfb], by rw [hfb]⟩

/-- C2 witness: with one clean retrieved chunk of relevance 0.3 and a
failing provider, `generate_answer` succeeds with the fallback's fields. -/
theorem c2_fallback_terminal_witness :
    ∃ resp : AnswerResponse,
      LLMService.generate_answer [] none "what" [⟨"alpha", "doc", 3 / 10, "p1"⟩] =
        Except.ok resp ∧
      some resp.answer = (FallbackProvider.generate_completion
        (LLMService.mkUserMessage "what" [⟨"alpha", "doc", 3 / 10, "p1"⟩])).answer ∧
      some resp.confidence = (FallbackProvider.generate_completion
        (LLMService.mkUserMessage "what" [⟨"alpha", "doc", 3 / 10, "p1"⟩])).confidence ∧
      some resp.sources_used = (FallbackProvider.generate_completion
        (LLMService.mkUserMessage "what" [⟨"alpha", "doc", 3 / 10, "p1"⟩])).sources_used ∧
      some resp.is_complete = (FallbackProvider.generate_completion
        (LLMService.mkUserMessage "what" [⟨"alpha", "doc", 3 / 10, "p1"⟩])).is_complete ∧
      some resp.reasoning = (FallbackProvider.generate_completion
        (LLMService.mkUserMessage "what" [⟨"alpha", "doc", 3 / 10, "p1"⟩])).reasoning :=
  c2_fallback_terminal [] "what" [⟨"alpha", "doc", 3 / 10, "p1"⟩]
    (by decide) (by decide)
    (by
      intro e he
      rw [List.mem_singleton] at he
      subst he
      exact ⟨by decide, by decide, by decide, by norm_num, by norm_num⟩)

end EvaluatorTheorems

section FallbackTheorems

/-- C3 counterexample: a context entry whose content contains the
no-context sentinel text hijacks the sentinel branch — with one source of
relevance 0.9 the returned confidence is 0.1, not the capped mean
`min 0.9 0.65`. -/
theorem c3_counterexample :
    (FallbackProvider.generate_completion (LLMService.mkUserMessage "q"
        [⟨"No relevant context found", "doc", 9 / 10, "p1"⟩])).confidence =
      some (1 / 10) ∧
    (1 / 10 : ℚ) ≠ min (9 / 10) (13 / 20) := by
  have hhd : ∀ x : Char, x ∉ headChars → safeChar x = false →
      x ∉ headerLine 1 ⟨"No relevant context found", "doc", 9 / 10, "p1"⟩ := by
    intro x hx1 hx2 hm
    rcases mem_headerLine_parts (by decide) (by decide) (by norm_num) x hm with h | h
    · exact hx1 h
    · rw [h] at hx2
      cases hx2
  have hFb : LLMService.format_context [⟨"No relevant context found", "doc", 9 / 10, "p1"⟩] =
      LLMService.block 1 ⟨"No relevant context found", "doc", 9 / 10, "p1"⟩ := rfl
  have hCF : 'C' ∉
      LLMService.format_context [⟨"No relevant context found", "doc", 9 / 10, "p1"⟩] := by
    rw [hFb, block_eq]
    intro hm
    simp only [List.append_assoc, List.mem_append] at hm
    rcases hm with h | h | h | h
    · exact hhd 'C' (by decide) (by decide) h
    · exact absurd h (by decide)
    · exact absurd h (by decide)
    · exact absurd h (by decide)
  have hQF : 'Q' ∉
      LLMService.format_context [⟨"No relevant context found", "doc", 9 / 10, "p1"⟩] := by
    rw [hFb, block_eq]
    intro hm
    simp only [List.append_assoc, List.mem_append] at hm
    rcases hm with h | h | h | h
    · exact hhd 'Q' (by decide) (by decide) h
    · exact absurd h (by decide)
    · exact absurd h (by decide)
    · exact absurd h (by decide)
  have hctx := extractContext_any (show 'C' ∉ "q".toList from by decide) hCF hQF
  have hsen : charsHasSubstr
      (LLMService.format_context [⟨"No relevant context found", "doc", 9 / 10, "p1"⟩])
      "No relevant context found".toList = true := by
    rw [hFb, block_eq]
    exact sub_intro _ _ _
  constructor
  · unfold FallbackProvider.generate_completion
    rw [hctx]
    simp only [hsen, if_true]
  · rw [min_def]
    norm_num

/-- C3 amended: on a non-empty clean context (delimiter-free fields, scores
in [0, 1]) and a query free of the parser's capital delimiter letters, the
confidence is the mean of the two-decimal-rounded relevance scores capped
at 0.65, `is_complete` is exactly `confidence > 0.5`, and a mean of exactly
0.5 yields `is_complete = false`. -/
theorem c3_confidence_mean_capped (q : String) (ctx : List CtxEntry) (hC : 'C' ∉ q.toList)
    (hQ : 'Q' ∉ q.toList) (hcl : ∀ e ∈ ctx, cleanEntry e) (hne : ctx ≠ []) :
    (FallbackProvider.generate_completion (LLMService.mkUserMessage q ctx)).confidence =
      some (min ((ctx.map fun e => round2 e.relevance).sum / (ctx.length : ℚ)) (13 / 20)) ∧
    (FallbackProvider.generate_completion (LLMService.mkUserMessage q ctx)).is_complete =
      some (decide ((1 / 2 : ℚ) <
        min ((ctx.map fun e => round2 e.relevance).sum / (ctx.length : ℚ)) (13 / 20))) ∧
    ((ctx.map fun e => round2 e.relevance).sum / (ctx.length : ℚ) = 1 / 2 →
      (FallbackProvider.generate_completion (LLMService.mkUserMessage q ctx)).is_complete =
        some false) := by
  have h := fallback_clean_eq hC hQ hcl hne
  refine ⟨by rw [h], by rw [h], ?_⟩
  intro hhalf
  rw [h]
  have hm2 : min ((ctx.map fun e => round2 e.relevance).sum / (ctx.length : ℚ)) (13 / 20) =
      1 / 2 := by
    rw [hhalf, min_def]
    norm_num
  rw [hm2]
  simp [decide_eq_false (lt_irrefl ((1 : ℚ) / 2))]

/-- C3 witness: a single clean source of relevance exactly 0.5 puts the
mean on the boundary, and the provider reports `is_complete = false`. -/
theorem c3_confidence_mean_capped_witness :
    (FallbackProvider.generate_completion (LLMService.mkUserMessage "what"
        [⟨"alpha", "doc", 1 / 2, "p1"⟩])).is_complete = some false :=
  (c3_confidence_mean_capped "what" [⟨"alpha", "doc", 1 / 2, "p1"⟩] (by decide) (by decide)
      (by
        intro e he
        rw [List.mem_singleton] at he
        subst he
        exact ⟨by decide, by decide, by decide, by norm_num, by norm_num⟩)
      (List.cons_ne_nil _ _)).2.2
    (by norm_num [List.map_cons, List.map_nil, List.sum_cons, List.sum_nil,
      List.length_cons, List.length_nil, round2, round2N, show Int.toNat 1 = 1 from rfl])

/-- C4 counterexample: the retrieval context is empty, but the query itself
contains `"Context:\n"`; the parser's last-split then extracts a slice of
the query instead of the sentinel, and the provider returns confidence 0.0
with a medium-priority suggestion — not 0.1 with a high-priority one. -/
theorem c4_counterexample :
    (FallbackProvider.generate_completion
        (LLMService.mkUserMessage "why\nContext:\nfoo" [])).confidence = some 0 ∧
    (FallbackProvider.generate_completion
        (LLMService.mkUserMessage "why\nContext:\nfoo" [])).enrichment_suggestions =
      some [⟨some "why\nContext:\nfoo".toList,
        some "Upload more detailed documents about this specific topic".toList,
        some "medium".toList⟩] := by
  have hctx : FallbackProvider.extractContext
      (LLMService.mkUserMessage "why\nContext:\nfoo" []) = "foo".toList := by decide
  have hq : FallbackProvider.extractQuery
      (LLMService.mkUserMessage "why\nContext:\nfoo" []) =
      "why\nContext:\nfoo".toList := by decide
  have hsen : charsHasSubstr "foo".toList "No relevant context found".toList = false := by
    decide
  have hlines : splitL ['\n'] "foo".toList = ["foo".toList] := by decide
  have hskip : charsHasStart "foo".toList "[Source".toList = false := by decide
  have hmin : min (0 : ℚ) (13 / 20) = 0 := by
    rw [min_def]
    norm_num
  have hd : decide ((1 / 2 : ℚ) < 0) = false := decide_eq_false (by norm_num)
  have ha : ¬ ((2 / 5 : ℚ) < 0) := by norm_num
  unfold FallbackProvider.generate_completion
  rw [hctx, hq]
  simp only [hsen, Bool.false_eq_true, if_false, hlines, List.foldl_cons, List.foldl_nil,
    processLine_skip hskip, lt_self_iff_false, hmin, hd, List.isEmpty_cons, if_neg ha]
  exact ⟨trivial, trivial⟩

/-- C4 amended: on an empty retrieval context, for every query avoiding the
parser's capital delimiter letters, the fallback returns exactly the
no-context result: confidence 0.1, `is_complete = false`, no sources, and
one high-priority suggestion whose missing topic is the query. -/
theorem c4_empty_context (q : String) (hC : 'C' ∉ q.toList) (hQ : 'Q' ∉ q.toList) :
    FallbackProvider.generate_completion (LLMService.mkUserMessage q []) =
      { answer := some
          ("I couldn't find relevant information in the knowledge base to answer: '".toList
            ++ q.toList ++ "'. Please upload documents related to this topic.".toList)
        confidence := some (1 / 10)
        sources_used := some []
        is_complete := some false
        missing_information := some ["Information about: ".toList ++ q.toList]
        enrichment_suggestions := some [⟨some q.toList,
          some ("Upload documents containing information about ".toList ++ q.toList),
          some "high".toList⟩]
        reasoning := some "No relevant documents found in the knowledge base.".toList } :=
  fallback_sentinel_eq hC hQ

/-- C4 witness: the no-context result on the concrete query `"what"`. -/
theorem c4_empty_context_witness :
    FallbackProvider.generate_completion (LLMService.mkUserMessage "what" []) =
      { answer := some
          ("I couldn't find relevant information in the knowledge base to answer: '".toList
            ++ "what".toList ++ "'. Please upload documents related to this topic.".toList)
        confidence := some (1 / 10)
        sources_used := some []
        is_complete := some false
        missing_information := some ["Information about: ".toList ++ "what".toList]
        enrichment_suggestions := some [⟨some "what".toList,
          some ("Upload documents containing information about ".toList ++ "what".toList),
          some "high".toList⟩]
        reasoning := some "No relevant documents found in the knowledge base.".toList } :=
  c4_empty_context "what" (by decide) (by decide)

/-- C9 counterexample: one clean source of relevance 0.3 gives confidence
0.3 ≤ 0.4, and the returned answer is the hedge sentence alone — it does
not contain the context content, so no truncated context excerpt is
attached, contrary to the claimed "hedge plus excerpt". -/
theorem c9_counterexample :
    ∃ ans : Str,
      (FallbackProvider.generate_completion (LLMService.mkUserMessage "what"
          [⟨"paneldetails", "doc", 3 / 10, "p1"⟩])).answer = some ans ∧
      (FallbackProvider.generate_completion (LLMService.mkUserMessage "what"
          [⟨"paneldetails", "doc", 3 / 10, "p1"⟩])).confidence = some (3 / 10) ∧
      (3 / 10 : ℚ) ≤ 2 / 5 ∧
      charsHasSubstr ans "paneldetails".toList = false := by
  have hcl : ∀ e ∈ ([⟨"paneldetails", "doc", 3 / 10, "p1"⟩] : List CtxEntry),
      cleanEntry e := by
    intro e he
    rw [List.mem_singleton] at he
    subst he
    exact ⟨by decide, by decide, by decide, by norm_num, by norm_num⟩
  have h := fallback_clean_eq (show 'C' ∉ "what".toList from by decide)
    (show 'Q' ∉ "what".toList from by decide) hcl (List.cons_ne_nil _ _)
  have hmean : (([⟨"paneldetails", "doc", 3 / 10, "p1"⟩] : List CtxEntry).map
      fun e => round2 e.relevance).sum /
      (([⟨"paneldetails", "doc", 3 / 10, "p1"⟩] : List CtxEntry).length : ℚ) = 3 / 10 := by
    norm_num [List.map_cons, List.map_nil, List.sum_cons, List.sum_nil, List.length_cons,
      List.length_nil, round2, round2N, show Int.toNat 3 = 3 from rfl]
  rw [hmean] at h
  have hmin : min (3 / 10 : ℚ) (13 / 20) = 3 / 10 := by
    rw [min_def]
    norm_num
  rw [hmin] at h
  have hifneg : ¬ ((2 / 5 : ℚ) < 3 / 10) := by norm_num
  have hdf : decide ((1 / 2 : ℚ) < 3 / 10) = false := decide_eq_false (by norm_num)
  simp only [if_neg hifneg, hdf, Bool.false_eq_true, if_false] at h
  exact ⟨"I found some information, but it may not be highly relevant to: '".toList ++
      "what".toList ++ "'".toList,
    by rw [h], by rw [h], by norm_num, by decide⟩

/-- C9 amended: on a non-empty clean context with capped mean confidence at
most 0.4 (and a query free of the parser's capital delimiter letters), the
answer is degraded to the hedge sentence alone — no context excerpt — and
the generic "upload more detailed documents" suggestion is attached,
together with the generic missing-information entry. -/
theorem c9_low_confidence_hedge (q : String) (ctx : List CtxEntry) (hC : 'C' ∉ q.toList)
    (hQ : 'Q' ∉ q.toList) (hcl : ∀ e ∈ ctx, cleanEntry e) (hne : ctx ≠ [])
    (hconf : min ((ctx.map fun e => round2 e.relevance).sum / (ctx.length : ℚ)) (13 / 20) ≤
      2 / 5) :
    (FallbackProvider.generate_completion (LLMService.mkUserMessage q ctx)).answer =
      some ("I found some information, but it may not be highly relevant to: '".toList ++
        q.toList ++ "'".toList) ∧
    (FallbackProvider.generate_completion
        (LLMService.mkUserMessage q ctx)).enrichment_suggestions =
      some [⟨some q.toList,
        some "Upload more detailed documents about this specific topic".toList,
        some "medium".toList⟩] ∧
    (FallbackProvider.generate_completion
        (LLMService.mkUserMessage q ctx)).missing_information =
      some ["More comprehensive information on this topic".toList] := by
  have h := fallback_clean_eq hC hQ hcl hne
  have hd : decide ((1 / 2 : ℚ) <
      min ((ctx.map fun e => round2 e.relevance).sum / (ctx.length : ℚ)) (13 / 20)) =
      false := decide_eq_false (not_lt.2 (hconf.trans (by norm_num)))
  simp only [hd, Bool.false_eq_true, if_false] at h
  exact ⟨by rw [h, if_neg (not_lt.2 hconf)], by rw [h], by rw [h]⟩

/-- C9 witness: one clean source of relevance 0.3 satisfies the
low-confidence hypothesis and yields the hedge answer with the generic
suggestion and missing-information entry. -/
theorem c9_low_confidence_hedge_witness :
    (FallbackProvider.generate_completion (LLMService.mkUserMessage "what"
        [⟨"alpha", "doc", 3 / 10, "p1"⟩])).answer =
      some ("I found some information, but it may not be highly relevant to: '".toList ++
        "what".toList ++ "'".toList) ∧
    (FallbackProvider.generate_completion (LLMService.mkUserMessage "what"
        [⟨"alpha", "doc", 3 / 10, "p1"⟩])).enrichment_suggestions =
      some [⟨some "what".toList,
        some "Upload more detailed documents about this specific topic".toList,
        some "medium".toList⟩] ∧
    (FallbackProvider.generate_completion (LLMService.mkUserMessage "what"
        [⟨"alpha", "doc", 3 / 10, "p1"⟩])).missing_information =
      some ["More comprehensive information on this topic".toList] :=
  c9_low_confidence_hedge "what" [⟨"alpha", "doc", 3 / 10, "p1"⟩] (by decide) (by decide)
    (by
      intro e he
      rw [List.mem_singleton] at he
      subst he
      exact ⟨by decide, by decide, by decide, by norm_num, by norm_num⟩)
    (List.cons_ne_nil _ _)
    (le_trans (min_le_left _ _)
      (by norm_num [List.map_cons, List.map_nil, List.sum_cons, List.sum_nil,
        List.length_cons, List.length_nil, round2, round2N,
        show Int.toNat 3 = 3 from rfl]))

end FallbackTheorems

section EmbedderTheorems

/-- C8 counterexample: a fresh remote-enabled embedder with no local model
receives a failing remote call whose lazy `_init_sentence_transformers()`
also fails; the init failure is raised BEFORE `use_openai = False` runs, so
the call aborts undemoted — and the next call invokes the remote strategy
again, contradicting "once a remote call fails, no later call invokes the
remote strategy". -/
theorem c8_counterexample :
    EmbeddingService.runCalls ⟨true, true, false⟩ [(true, true), (true, false)] =
      (⟨false, true, true⟩,
        [(true, Except.error "Failed to initialize sentence-transformers"),
          (true, Except.ok EmbeddingService.EmbedMethod.local_model)]) := rfl

/-- C8 amended: a failing remote call that COMPLETES — the local model is
already initialized, or its lazy initialization succeeds — returns the
local result, permanently clears `use_openai`, and every later call on the
instance uses the local strategy without invoking the remote one; only a
call aborted by a failing lazy init (the counterexample) escapes the
demotion. -/
theorem c8_remote_demotion (st : EmbeddingService.EmbedderState) (lif : Bool)
    (calls : List (Bool × Bool)) (hrem : EmbeddingService.remoteInvoked st = true)
    (hcomplete : st.has_embedding_model = true ∨ lif = false) :
    (EmbeddingService.generate_embedding st true lif).2 =
      Except.ok EmbeddingService.EmbedMethod.local_model ∧
    (EmbeddingService.generate_embedding st true lif).1.use_openai = false ∧
    (EmbeddingService.runCalls (EmbeddingService.generate_embedding st true lif).1 calls).2 =
      calls.map fun _ =>
        (false, Except.ok EmbeddingService.EmbedMethod.local_model) := by
  have hg : (st.use_openai && st.has_openai_client) = true := hrem
  have hinner : (!st.has_embedding_model && lif) = false := by
    rcases hcomplete with h | h
    · rw [h]
      rfl
    · rw [h]
      simp
  have hstep : EmbeddingService.generate_embedding st true lif =
      ({ st with use_openai := false, has_embedding_model := true },
        Except.ok EmbeddingService.EmbedMethod.local_model) := by
    unfold EmbeddingService.generate_embedding
    rw [hg, hinner]
    rfl
  refine ⟨by rw [hstep], by rw [hstep], ?_⟩
  rw [hstep, runCalls_demoted calls _ rfl]

/-- C8 witness: the fresh remote-enabled state with a succeeding lazy init
is demoted by one failing remote call, and two later calls — whatever their
oracles — answer locally without invoking the remote strategy. -/
theorem c8_remote_demotion_witness :
    (EmbeddingService.generate_embedding ⟨true, true, false⟩ true false).2 =
      Except.ok EmbeddingService.EmbedMethod.local_model ∧
    (EmbeddingService.generate_embedding ⟨true, true, false⟩ true false).1.use_openai =
      false ∧
    (EmbeddingService.runCalls
        (EmbeddingService.generate_embedding ⟨true, true, false⟩ true false).1
        [(true, true), (false, false)]).2 =
      [(true, true), (false, false)].map fun _ =>
        ((false : Bool), Except.ok EmbeddingService.EmbedMethod.local_model) :=
  c8_remote_demotion ⟨true, true, false⟩ false [(true, true), (false, false)] rfl
    (Or.inr rfl)

end EmbedderTheorems

section SearchTheorems

open EmbeddingService

/-- Helper: the empty-hit-list guard of `search` is equivalent to mapping
the per-hit formatting over the hits. -/
theorem search_eq_map (hits : List QueryHit) :
    search hits = hits.map fun h => (formatHit h).1 := by
  cases hits with
  | nil => rfl
  | cons h t => rfl

/-- C5: every relevance score returned by the vector search equals
`1 - distance / 2` of the corresponding hit's raw cosine distance (so the
caller never sees a raw distance), all returned scores lie in [0, 1] when
the raw distances lie in the cosine range [0, 2], and a query against an
empty index returns the empty result without error. -/
theorem c5_search_scores (hits : List QueryHit)
    (h : ∀ q ∈ hits, 0 ≤ q.distance ∧ q.distance ≤ 2) :
    search [] = ([] : List CtxEntry) ∧
    (search hits).length = hits.length ∧
    (∀ i : Nat, ((search hits)[i]?).map (fun e => e.relevance) =
      (hits[i]?).map fun q => 1 - q.distance / 2) ∧
    (∀ e ∈ search hits, 0 ≤ e.relevance ∧ e.relevance ≤ 1) := by
  refine ⟨rfl, ?_, ?_, ?_⟩
  · rw [search_eq_map]
    exact List.length_map _ _
  · intro i
    rw [search_eq_map, List.getElem?_map]
    cases hits[i]? with
    | none => rfl
    | some q => rfl
  · intro e he
    rw [search_eq_map] at he
    obtain ⟨q, hq, rfl⟩ := List.mem_map.1 he
    obtain ⟨h0, h2⟩ := h q hq
    constructor
    · show (0 : ℚ) ≤ 1 - q.distance / 2
      linarith
    · show (1 - q.distance / 2 : ℚ) ≤ 1
      linarith

/-- C5 witness: a single hit at cosine distance 0.4 (the spec's scenario)
satisfies the distance-range hypothesis, its reported relevance is
`1 - 0.4 / 2 = 0.8`, and the score bounds hold for the returned entry. -/
theorem c5_search_scores_witness :
    ((search [⟨"chunk", "doc", "0", "d1", "p", 2 / 5⟩])[0]?).map (fun e => e.relevance) =
      some (1 - (2 / 5 : ℚ) / 2) ∧
    (0 : ℚ) ≤ (⟨"chunk", "doc", 1 - (2 / 5 : ℚ) / 2, "p"⟩ : CtxEntry).relevance ∧
    (⟨"chunk", "doc", 1 - (2 / 5 : ℚ) / 2, "p"⟩ : CtxEntry).relevance ≤ 1 := by
  have hd : ∀ q ∈ ([⟨"chunk", "doc", "0", "d1", "p", 2 / 5⟩] : List QueryHit),
      0 ≤ q.distance ∧ q.distance ≤ 2 := by
    intro q hq
    rw [List.mem_singleton] at hq
    subst hq
    constructor <;> norm_num
  obtain ⟨hb0, hb1⟩ :=
    (c5_search_scores [⟨"chunk", "doc", "0", "d1", "p", 2 / 5⟩] hd).2.2.2
      ⟨"chunk", "doc", 1 - (2 / 5 : ℚ) / 2, "p"⟩
      (by rw [search_eq_map]; exact List.mem_singleton.mpr rfl)
  exact ⟨((c5_search_scores [⟨"chunk", "doc", "0", "d1", "p", 2 / 5⟩] hd).2.2.1 0).trans rfl,
    hb0, hb1⟩

end SearchTheorems

section FeedbackTheorems

/-- C6 counterexample: store two entries (ids 1 and 2), delete id 1, then
store again — the remaining history is `[2]` and the new submission is
assigned `feedback_id = len + 1 = 2`, which is not strictly greater than
the previously assigned id 2 (`¬ 2 > 2`). -/
theorem c6_counterexample :
    (FeedbackService.store_feedback
        (FeedbackService.store_feedback [] "q1" 3 none none none none "t1" true).1
        "q2" 3 none none none none "t2" true).2 =
      Except.ok ⟨2, "q2", 3, none, none, none, none, "t2"⟩ ∧
    ((FeedbackService.delete_feedback
        (FeedbackService.store_feedback
          (FeedbackService.store_feedback [] "q1" 3 none none none none "t1" true).1
          "q2" 3 none none none none "t2" true).1 1).1.map fun f => f.feedback_id) = [2] ∧
    (FeedbackService.store_feedback
        (FeedbackService.delete_feedback
          (FeedbackService.store_feedback
            (FeedbackService.store_feedback [] "q1" 3 none none none none "t1" true).1
            "q2" 3 none none none none "t2" true).1 1).1
        "q4" 3 none none none none "t4" true).2 =
      Except.ok ⟨2, "q4", 3, none, none, none, none, "t4"⟩ ∧
    ¬ ((2 : Nat) > 2) := by
  refine ⟨rfl, rfl, rfl, by decide⟩

/-- C6 amended: out-of-range ratings are rejected with the validation
error and the history is unchanged; an accepted submission is assigned
`feedback_id = current entry count + 1` and appended, which is strictly
greater than every stored id as long as every stored id is bounded by the
entry count (true for any deletion-free history, and preserved by each
accepted store) — after a deletion the bound can fail and an id can be
reassigned; deleting never renumbers the remaining entries. -/
theorem c6_feedback_ids :
    (∀ (data : List FeedbackService.FeedbackEntry) (qid : String) (r : ℤ)
        (ft q a : Option String) (c : Option ℚ) (now : String) (so : Bool),
      (r < 1 ∨ 5 < r) →
        (FeedbackService.store_feedback data qid r ft q a c now so).1 = data ∧
        (FeedbackService.store_feedback data qid r ft q a c now so).2 =
          Except.error ("Rating must be an integer between 1 and 5, got: " ++ toString r)) ∧
    (∀ (data : List FeedbackService.FeedbackEntry) (qid : String) (r : ℤ)
        (ft q a : Option String) (c : Option ℚ) (now : String),
      1 ≤ r → r ≤ 5 →
        (FeedbackService.store_feedback data qid r ft q a c now true).2 =
          Except.ok ⟨data.length + 1, qid, r, ft, q, a, c, now⟩ ∧
        (FeedbackService.store_feedback data qid r ft q a c now true).1 =
          data ++ [⟨data.length + 1, qid, r, ft, q, a, c, now⟩] ∧
        ((∀ f ∈ data, f.feedback_id ≤ data.length) →
          (∀ f ∈ data, f.feedback_id < data.length + 1) ∧
          ∀ f ∈ (FeedbackService.store_feedback data qid r ft q a c now true).1,
            f.feedback_id ≤
              (FeedbackService.store_feedback data qid r ft q a c now true).1.length)) ∧
    (∀ (data : List FeedbackService.FeedbackEntry) (fid : Nat),
      ∀ f ∈ (FeedbackService.delete_feedback data fid).1, f ∈ data) := by
  refine ⟨?_, ?_, ?_⟩
  · intro data qid r ft q a c now so hbad
    unfold FeedbackService.store_feedback
    rw [if_pos hbad]
    exact ⟨rfl, rfl⟩
  · intro data qid r ft q a c now hr1 hr5
    have hok : ¬ (r < 1 ∨ 5 < r) := not_or.2 ⟨not_lt.2 hr1, not_lt.2 hr5⟩
    have h1 : (FeedbackService.store_feedback data qid r ft q a c now true).2 =
        Except.ok ⟨data.length + 1, qid, r, ft, q, a, c, now⟩ := by
      unfold FeedbackService.store_feedback
      rw [if_neg hok]
      rfl
    have h2 : (FeedbackService.store_feedback data qid r ft q a c now true).1 =
        data ++ [⟨data.length + 1, qid, r, ft, q, a, c, now⟩] := by
      unfold FeedbackService.store_feedback
      rw [if_neg hok]
      rfl
    refine ⟨h1, h2, fun hinv => ⟨fun f hf => Nat.lt_succ_of_le (hinv f hf), ?_⟩⟩
    intro f hf
    rw [h2] at hf ⊢
    rw [List.length_append]
    rcases List.mem_append.1 hf with hl | hr
    · exact (hinv f hl).trans (Nat.le_add_right _ _)
    · rw [List.mem_singleton] at hr
      subst hr
      simp
  · intro data fid f hf
    simp only [FeedbackService.delete_feedback] at hf
    by_cases hc : (data.filter fun g => g.feedback_id ≠ fid).length < data.length
    · rw [if_pos hc] at hf
      exact List.mem_of_mem_filter hf
    · rw [if_neg hc] at hf
      exact hf

/-- C6 witness: rating 0 is rejected leaving the empty history unchanged,
and a first accepted submission with rating 3 gets feedback_id 1. -/
theorem c6_feedback_ids_witness :
    (FeedbackService.store_feedback [] "q0" 0 none none none none "t0" true).1 = [] ∧
    (FeedbackService.store_feedback [] "q0" 0 none none none none "t0" true).2 =
      Except.error ("Rating must be an integer between 1 and 5, got: " ++ toString (0 : ℤ)) ∧
    (FeedbackService.store_feedback [] "q1" 3 none none none none "t1" true).2 =
      Except.ok ⟨1, "q1", 3, none, none, none, none, "t1"⟩ :=
  ⟨(c6_feedback_ids.1 [] "q0" 0 none none none none "t0" true (Or.inl (by norm_num))).1,
    (c6_feedback_ids.1 [] "q0" 0 none none none none "t0" true (Or.inl (by norm_num))).2,
    (c6_feedback_ids.2.1 [] "q1" 3 none none none none "t1" (by norm_num) (by norm_num)).1⟩

end FeedbackTheorems
section PersistenceTheorems

/-- C7 counterexample: a failed document-metadata write with the in-memory
map starting empty and the live file intact — `record_document` keeps the
new record in memory (no rollback), returns normally (no error surfaced),
and the live target file is left corrupt, because `_save_metadata` opened
the live file in place instead of writing a temporary file and atomically
replacing the target. -/
theorem c7_counterexample :
    DocumentService.record_document false [] "doc-1" "meta-record"
        ⟨FileContent.intact [], FileContent.absent⟩ =
      ([("doc-1", "meta-record")],
        ⟨FileContent.corrupt, FileContent.absent⟩) := rfl

/-- C7 amended: the feedback store's `_save_feedback` writes the temp file
and atomically replaces the target — a failed attempt leaves the target
untouched and reports failure, and `store_feedback` then rolls the
in-memory append back and raises; the document service's `_save_metadata`,
by contrast, writes the live file in place — a failed write leaves the
target corrupt, the exception is swallowed, and the in-memory metadata
keeps the new record. -/
theorem c7_persistence :
    (∀ (α : Type) (data : α) (fs : FileSystem α),
      FeedbackService.save_feedback true data fs =
        (⟨FileContent.intact data, FileContent.absent⟩, true) ∧
      (FeedbackService.save_feedback false data fs).1.target = fs.target ∧
      (FeedbackService.save_feedback false data fs).2 = false) ∧
    (∀ (data : List FeedbackService.FeedbackEntry) (qid : String) (r : ℤ)
        (ft q a : Option String) (c : Option ℚ) (now : String),
      1 ≤ r → r ≤ 5 →
        (FeedbackService.store_feedback data qid r ft q a c now false).1 = data ∧
        (FeedbackService.store_feedback data qid r ft q a c now false).2 =
          Except.error "Failed to save feedback to file") ∧
    (∀ (α : Type) (data : α) (fs : FileSystem α),
      DocumentService.save_metadata false data fs = ⟨FileContent.corrupt, fs.temp⟩) ∧
    (∀ (ok : Bool) (metadata : List (String × String)) (doc_id rec : String)
        (fs : FileSystem (List (String × String))),
      (DocumentService.record_document ok metadata doc_id rec fs).1 =
        metadata ++ [(doc_id, rec)]) := by
  refine ⟨fun α data fs => ⟨rfl, rfl, rfl⟩, ?_, fun α data fs => rfl,
    fun ok metadata doc_id rec fs => rfl⟩
  intro data qid r ft q a c now hr1 hr5
  have hok : ¬ (r < 1 ∨ 5 < r) := not_or.2 ⟨not_lt.2 hr1, not_lt.2 hr5⟩
  constructor
  · unfold FeedbackService.store_feedback
    rw [if_neg hok]
    exact List.dropLast_concat
  · unfold FeedbackService.store_feedback
    rw [if_neg hok]
    rfl

/-- C7 witness: a failed save of an accepted rating-3 submission on the
empty history rolls the in-memory state back to empty and surfaces the
storage error. -/
theorem c7_persistence_witness :
    (FeedbackService.store_feedback [] "q" 3 none none none none "t" false).1 = [] ∧
    (FeedbackService.store_feedback [] "q" 3 none none none none "t" false).2 =
      Except.error "Failed to save feedback to file" :=
  c7_persistence.2.1 [] "q" 3 none none none none "t" (by norm_num) (by norm_num)

end PersistenceTheorems

section StatsTheorems

/-- C10 counterexample: the empty feedback history has no low-rated entry,
yet `get_feedback_stats` returns an empty suggestions list — the default
"performing well" message is not in it. -/
theorem c10_counterexample :
    (FeedbackService.get_feedback_stats []).suggestions = [] ∧
    ¬ ("System is performing well - keep the knowledge base updated" ∈
        (FeedbackService.get_feedback_stats []).suggestions) := by
  refine ⟨rfl, fun hmem => ?_⟩
  rw [show (FeedbackService.get_feedback_stats []).suggestions = [] from rfl] at hmem
  exact List.not_mem_nil _ hmem

/-- C10 amended: for every non-empty feedback history with no entry rated
at most 2, the statistics' suggestions list is exactly the default
"performing well" message; the empty history instead yields an empty
suggestions list (its fixed early-return dict bypasses
`_generate_suggestions`). -/
theorem c10_performing_well (data : List FeedbackService.FeedbackEntry)
    (h1 : data ≠ []) (h2 : ∀ f ∈ data, 2 < f.rating) :
    (FeedbackService.get_feedback_stats data).suggestions =
      ["System is performing well - keep the knowledge base updated"] := by
  have hne : data.isEmpty = false := by
    cases data with
    | nil => exact absurd rfl h1
    | cons a t => rfl
  have hlow : (data.filter fun f => f.rating ≤ 2) = [] := by
    apply List.filter_eq_nil_iff.2
    intro f hf
    simp only [decide_eq_true_eq]
    exact not_le.2 (h2 f hf)
  simp only [FeedbackService.get_feedback_stats, hne, Bool.false_eq_true, if_false, hlow]
  rfl

/-- C10 witness: a one-entry history rated 5 has no low-rated entries and
gets exactly the default "performing well" suggestion. -/
theorem c10_performing_well_witness :
    (FeedbackService.get_feedback_stats
        [⟨1, "q1", 5, none, none, none, none, "t1"⟩]).suggestions =
      ["System is performing well - keep the knowledge base updated"] :=
  c10_performing_well [⟨1, "q1", 5, none, none, none, none, "t1"⟩]
    (List.cons_ne_nil _ _)
    (by
      intro f hf
      rw [List.mem_singleton] at hf
      subst hf
      norm_num)

end StatsTheorems
